import Mathlib

/-!
Verification development for the VCF-RDFizer Docker wrapper
(`vcf_rdfizer.py`).  The Python source is shallowly embedded: pure string
and list manipulations are translated directly; filesystem and subprocess
effects are parameterized by explicit environment records (oracles for
exit codes, directory listings, file sizes and existence), and the
side-effect trace of a run is recorded as a list of events.

String handling note: Python `str` values are modelled as Lean `String`,
and the character-level operations (suffix/stem splitting, strip, split,
endswith) are implemented over `String.data` with structural recursion so
that every definition evaluates inside the kernel.
-/

/-- Decidable equality for `Except`, used to evaluate concrete runs. -/
instance {ε α : Type} [DecidableEq ε] [DecidableEq α] : DecidableEq (Except ε α) :=
  fun a b =>
    match a, b with
    | .ok x, .ok y =>
        if h : x = y then .isTrue (by rw [h]) else .isFalse (by intro hc; cases hc; exact h rfl)
    | .error x, .error y =>
        if h : x = y then .isTrue (by rw [h]) else .isFalse (by intro hc; cases hc; exact h rfl)
    | .ok _, .error _ => .isFalse (by intro hc; cases hc)
    | .error _, .ok _ => .isFalse (by intro hc; cases hc)

/-- Lexicographic comparison of character lists by code point; this is how
Python compares `str` values (`a <= b`). -/
def lexLe : List Char → List Char → Bool
  | [], _ => true
  | _ :: _, [] => false
  | a :: as, b :: bs =>
      if a.toNat < b.toNat then true
      else if b.toNat < a.toNat then false
      else lexLe as bs

/-- Python string `<=`. -/
def strLe (s t : String) : Bool := lexLe s.data t.data

/-- Model of Python `sorted` on strings (stable sort by code point order). -/
def sortStrings (l : List String) : List String :=
  List.insertionSort (fun a b => strLe a b = true) l

/-- Python `s.endswith(t)`. -/
def strEndsWith (s t : String) : Bool :=
  s.data.drop (s.data.length - t.data.length) == t.data

/-- Python `s.startswith(t)`. -/
def strStartsWith (s t : String) : Bool :=
  s.data.take t.data.length == t.data

/-- Distance from the head to the first occurrence of `'.'`. -/
def idxOfDot : List Char → Option Nat
  | [] => none
  | c :: cs => if c = '.' then some 0 else (idxOfDot cs).map (· + 1)

/-- `pathlib.PurePath.suffix` on a file name, at the character level: the
final dotted extension, empty for names with no dot, for dotfiles such as
`".gz"`, and for names ending in a dot. -/
def pySuffixL (cs : List Char) : List Char :=
  match idxOfDot cs.reverse with
  | none => []
  | some j =>
      let i := cs.length - 1 - j
      if 0 < i ∧ i < cs.length - 1 then cs.drop i else []

/-- `pathlib.PurePath.suffix` on a file name. -/
def pySuffix (s : String) : String := ⟨pySuffixL s.data⟩

/-- `pathlib.PurePath.stem` on a file name: the name minus `pySuffix`. -/
def pyStem (s : String) : String :=
  ⟨s.data.take (s.data.length - (pySuffixL s.data).length)⟩

/-- Python slicing `s[:-n]` (for `0 < n ≤ len(s)`): drop the last `n`
characters. -/
def strDropRight (s : String) (n : Nat) : String :=
  ⟨s.data.take (s.data.length - n)⟩

/-- Python `s.lstrip(".")`. -/
def lstripDots (s : String) : String := ⟨s.data.dropWhile (· == '.')⟩

/-- The ASCII whitespace characters stripped by Python `str.strip()`. -/
def isPyWs (c : Char) : Bool :=
  c == ' ' || c == '\t' || c == '\n' || c == '\r' || c == '\x0b' || c == '\x0c'

/-- Python `s.strip()` (whitespace on both ends). -/
def pyStrip (s : String) : String :=
  ⟨((s.data.dropWhile isPyWs).reverse.dropWhile isPyWs).reverse⟩

/-- Python `s.strip("_")`. -/
def stripUnderscores (cs : List Char) : List Char :=
  ((cs.dropWhile (· == '_')).reverse.dropWhile (· == '_')).reverse

/-- Split a character list on a separator character; Python
`s.split(sep)` semantics (`"".split(",") == [""]`). -/
def splitCharAux (sep : Char) : List Char → List Char → List (List Char)
  | [], acc => [acc.reverse]
  | c :: cs, acc =>
      if c = sep then acc.reverse :: splitCharAux sep cs []
      else splitCharAux sep cs (c :: acc)

/-- Python `s.split(sep)` for a one-character separator. -/
def pySplit (sep : Char) (s : String) : List String :=
  (splitCharAux sep s.data []).map (⟨·⟩)

/-- `pathlib.PurePath.name`: the final path component. -/
def baseName (p : String) : String :=
  ⟨(splitCharAux '/' p.data []).getLastD []⟩

/-- Left-pad a numeral string with zeros to width `w`; used to render the
fractional part of a fixed-point number. -/
def padZeros (w : Nat) (cs : List Char) : List Char :=
  List.replicate (w - cs.length) '0' ++ cs

/-- Python `f"{x:.6f}"` on a rational wall-clock value: round to six
decimal places and render with exactly six fractional digits.  (Python
rounds binary floats half-to-even; ties cannot be distinguished at this
modelling level and are rounded half-up here.) -/
def formatFixed6 (q : ℚ) : String :=
  let n : ℤ := Int.fdiv (2 * q.num * 1000000 + q.den) (2 * q.den)
  let neg := n < 0
  let m := n.natAbs
  let whole := m / 1000000
  let frac := m % 1000000
  (if neg then "-" else "") ++ toString whole ++ "." ++ ⟨padZeros 6 (toString frac).data⟩

/-- `"null" if wall_val is None else f"{float(wall_val):.6f}"`. -/
def formatWall : Option ℚ → String
  | none => "null"
  | some q => formatFixed6 q

-- Sanity checks for the string-level helpers (scratch).
example : pySuffix "sample.nt" = ".nt" := by decide
example : pySuffix ".gz" = "" := by decide
example : pySuffix "a.tar.gz" = ".gz" := by decide
example : pySuffix "name" = "" := by decide
example : pySuffix "name." = "" := by decide
example : pyStem "sample.nt" = "sample" := by decide
example : pyStem "sample.hdt" = "sample" := by decide
example : pyStem ".gz" = ".gz" := by decide
example : strEndsWith "a.vcf.gz" ".vcf.gz" = true := by decide
example : strEndsWith "a.vcf" ".vcf.gz" = false := by decide
example : pyStrip "  none " = "none" := by decide
example : pySplit ',' "a,,b" = ["a", "", "b"] := by decide
example : pySplit ',' "" = [""] := by decide
example : baseName "/data/in/x.nt" = "x.nt" := by decide
example : sortStrings ["b.vcf", "a.vcf"] = ["a.vcf", "b.vcf"] := by decide
example : formatFixed6 (mkRat 1 2) = "0.500000" := by decide
example : formatFixed6 (3 : ℚ) = "3.000000" := by decide

/-! ## Input snapshotting (`is_vcf_file`, `list_vcfs_in_dir`,
`vcf_output_prefix`, `resolve_input_snapshot`)

A directory is modelled as the list of names of the plain files it
contains. -/

/-- `is_vcf_file` (vcf_rdfizer.py:128-130). -/
def is_vcf_file (name : String) : Bool :=
  strEndsWith name ".vcf" || strEndsWith name ".vcf.gz"

/-- `list_vcfs_in_dir` (vcf_rdfizer.py:133-138): the `.vcf`/`.vcf.gz`
plain files of a directory, in sorted order.  (`sorted(path.iterdir())`
sorts the full paths, which within one directory is name order.) -/
def list_vcfs_in_dir (names : List String) : List String :=
  (sortStrings names).filter is_vcf_file

/-- `vcf_output_prefix` (vcf_rdfizer.py:162-168): derive the per-input
output name by stripping the `.vcf.gz` or `.vcf` ending. -/
def vcf_output_pfx (name : String) : String :=
  if strEndsWith name ".vcf.gz" then strDropRight name 7
  else if strEndsWith name ".vcf" then strDropRight name 4
  else pyStem name

/-- Validation failures raised as `ValueError` during input resolution. -/
inductive ValErr where
  | inputNotFound (path : String)
  | badInputFile
  | noInputFiles
  | notFileOrDir
deriving DecidableEq, Repr

/-- Filesystem oracle for input resolution. -/
structure FsEnv where
  pathExists : String → Bool
  isFile : String → Bool
  isDir : String → Bool
  dirList : String → List String

/-- The data produced by `resolve_input_snapshot` (vcf_rdfizer.py:182-205):
container input paths and the expected per-input output names, captured
once at run start. -/
structure Snapshot where
  containerInputs : List String
  expectedPfxs : List String
deriving DecidableEq, Repr

/-- `resolve_input_snapshot` (vcf_rdfizer.py:182-205).  The mount
directory and metrics target are omitted; the snapshot parts the pipeline
loop consumes are kept. -/
def resolve_input_snapshot (env : FsEnv) (inputPath : String) : Except ValErr Snapshot :=
  if ¬ env.pathExists inputPath then .error (.inputNotFound inputPath)
  else if env.isFile inputPath then
    if ¬ is_vcf_file (baseName inputPath) then .error .badInputFile
    else .ok ⟨["/data/in/" ++ baseName inputPath], [vcf_output_pfx (baseName inputPath)]⟩
  else if env.isDir inputPath then
    let files := list_vcfs_in_dir (env.dirList inputPath)
    if files.isEmpty then .error .noInputFiles
    else .ok ⟨files.map (fun n => "/data/in/" ++ n), files.map vcf_output_pfx⟩
  else .error .notFileOrDir

/-! ## `unique_in_order`, `slugify` -/

/-- Loop of `unique_in_order` (vcf_rdfizer.py:171-179); `seen` models the
membership set. -/
def uniqLoop (seen : List String) : List String → List String
  | [] => []
  | x :: xs => if x ∈ seen then uniqLoop seen xs else x :: uniqLoop (x :: seen) xs

/-- `unique_in_order` (vcf_rdfizer.py:171-179). -/
def unique_in_order (l : List String) : List String := uniqLoop [] l

/-- Characters admitted unchanged by `slugify`
(regex class `[A-Za-z0-9_.-]`). -/
def slugAllowed (c : Char) : Bool :=
  c.isAlpha || c.isDigit || c == '_' || c == '.' || c == '-'

/-- `re.sub(r"[^A-Za-z0-9_.-]+", "_", value)`: collapse each maximal run
of disallowed characters into one underscore.  `skipping` is true while
inside a disallowed run whose underscore was already emitted. -/
def collapseAux (skipping : Bool) : List Char → List Char
  | [] => []
  | c :: cs =>
      if slugAllowed c then c :: collapseAux false cs
      else if skipping then collapseAux true cs
      else '_' :: collapseAux true cs

/-- `re.sub(r"[^A-Za-z0-9_.-]+", "_", value)`. -/
def collapseRuns (cs : List Char) : List Char := collapseAux false cs

/-- `slugify` (vcf_rdfizer.py:346-347). -/
def slugify (s : String) : String :=
  let r := stripUnderscores (collapseRuns s.data)
  if r.isEmpty then "vcf" else ⟨r⟩

/-! ## `parse_compression_methods` -/

/-- The `ValueError` raised for an unsupported compression method. -/
inductive ParseErr where
  | unsupported (method : String)
deriving DecidableEq, Repr

/-- Loop of `parse_compression_methods` (vcf_rdfizer.py:415-426):
`methods` is the accumulated result list, which the source also consults
for deduplication. -/
def parseLoop (methods : List String) : List String → Except ParseErr (List String)
  | [] => .ok methods
  | t :: ts =>
      let m := pyStrip t
      if m = "" then parseLoop methods ts
      else if m ≠ "gzip" ∧ m ≠ "brotli" ∧ m ≠ "hdt" then .error (.unsupported m)
      else if m ∈ methods then parseLoop methods ts
      else parseLoop (methods ++ [m]) ts

/-- `parse_compression_methods` (vcf_rdfizer.py:410-426). -/
def parse_compression_methods (raw : String) : Except ParseErr (List String) :=
  let value := pyStrip raw
  if value = "" ∨ value = "none" then .ok []
  else parseLoop [] (pySplit ',' value)

-- Sanity checks (scratch).
example : parse_compression_methods "gzip,brotli,hdt" = .ok ["gzip", "brotli", "hdt"] := by decide
example : parse_compression_methods " none " = .ok [] := by decide
example : parse_compression_methods "," = .ok [] := by decide
example : parse_compression_methods "gzip,,gzip,hdt" = .ok ["gzip", "hdt"] := by decide
example : parse_compression_methods "none,gzip" = .error (.unsupported "none") := by decide
example : slugify "a b/c" = "a_b_c" := by decide
example : slugify "__" = "vcf" := by decide
example : vcf_output_pfx "a.vcf.gz" = "a" := by decide
example : list_vcfs_in_dir ["b.vcf", "notes.txt", "a.vcf"] = ["a.vcf", "b.vcf"] := by decide

/-! ## Compression methods and the metrics ledger -/

/-- The closed set of compression methods.  `parse_compression_methods`
only ever returns the strings `"gzip"`, `"brotli"`, `"hdt"`, so the
pipeline stages downstream of it are embedded over this enumeration. -/
inductive CompMethod where
  | gzip
  | brotli
  | hdt
deriving DecidableEq, Repr, Fintype

/-- The string name of a compression method. -/
def methodName : CompMethod → String
  | .gzip => "gzip"
  | .brotli => "brotli"
  | .hdt => "hdt"

/-- Partial inverse of `methodName`. -/
def strToMethod : String → Option CompMethod
  | "gzip" => some .gzip
  | "brotli" => some .brotli
  | "hdt" => some .hdt
  | _ => none

/-- `METRICS_HEADER` (vcf_rdfizer.py:24-61): the canonical ledger schema,
fixed names in fixed order. -/
def METRICS_HEADER : List String :=
  ["run_id", "timestamp", "output_name", "output_dir", "exit_code_java",
   "wall_seconds_java", "user_seconds_java", "sys_seconds_java",
   "max_rss_kb_java", "input_mapping_size_bytes", "input_vcf_size_bytes",
   "output_dir_size_bytes", "output_triples", "jar", "mapping_file",
   "output_path", "combined_nq_size_bytes", "gzip_size_bytes",
   "brotli_size_bytes", "hdt_size_bytes", "exit_code_gzip",
   "exit_code_brotli", "exit_code_hdt", "wall_seconds_gzip",
   "user_seconds_gzip", "sys_seconds_gzip", "max_rss_kb_gzip",
   "wall_seconds_brotli", "user_seconds_brotli", "sys_seconds_brotli",
   "max_rss_kb_brotli", "wall_seconds_hdt", "user_seconds_hdt",
   "sys_seconds_hdt", "max_rss_kb_hdt", "compression_methods"]

/-- A CSV row as `csv.DictReader`/`DictWriter` handle it: a string-keyed
dictionary, modelled as an association list in insertion order. -/
abbrev Row : Type := List (String × String)

/-- Python `dict.get(k)`: the value at the first (only) binding of `k`. -/
def Row.get : Row → String → Option String
  | [], _ => none
  | (k₁, v₁) :: rest, k => if k₁ = k then some v₁ else Row.get rest k

/-- Python `dict[k] = v`: replace the binding of `k` in place, or append
a new binding at the end (dict insertion order). -/
def Row.set (r : Row) (k v : String) : Row :=
  match r with
  | [] => [(k, v)]
  | (k₁, v₁) :: rest => if k₁ = k then (k, v) :: rest else (k₁, v₁) :: Row.set rest k v

/-- The content of a metrics CSV file as `csv.DictReader` delivers it:
the header row and one dictionary per data row. -/
structure CsvFile where
  header : List String
  rows : List Row
deriving DecidableEq

/-- The result of one compression/decompression method execution
(the per-method dict built at vcf_rdfizer.py:700-705). -/
structure MethodResult where
  exit_code : ℤ
  wall_seconds : Option ℚ
  output_path : String
  output_size_bytes : ℤ
deriving DecidableEq

/-- The compression-stage defaults written before per-method results
(vcf_rdfizer.py:479-499), in the dict-literal order of the source. -/
def compressionDefaults : List (String × String) :=
  [("gzip_size_bytes", "0"), ("brotli_size_bytes", "0"), ("hdt_size_bytes", "0"),
   ("exit_code_gzip", "0"), ("exit_code_brotli", "0"), ("exit_code_hdt", "0"),
   ("wall_seconds_gzip", "null"), ("wall_seconds_brotli", "null"), ("wall_seconds_hdt", "null"),
   ("user_seconds_gzip", "null"), ("user_seconds_brotli", "null"), ("user_seconds_hdt", "null"),
   ("sys_seconds_gzip", "null"), ("sys_seconds_brotli", "null"), ("sys_seconds_hdt", "null"),
   ("max_rss_kb_gzip", "null"), ("max_rss_kb_brotli", "null"), ("max_rss_kb_hdt", "null")]

/-- `row.update(defaults)` (vcf_rdfizer.py:499). -/
def applyDefaults (r : Row) : Row :=
  compressionDefaults.foldl (fun r p => Row.set r p.1 p.2) r

/-- The per-method field keys of the ledger schema. -/
def msizeKey (m : CompMethod) : String := methodName m ++ "_size_bytes"

/-- The per-method exit-code key. -/
def mexitKey (m : CompMethod) : String := "exit_code_" ++ methodName m

/-- The per-method wall-seconds key. -/
def mwallKey (m : CompMethod) : String := "wall_seconds_" ++ methodName m

/-- Write one method result into a row (vcf_rdfizer.py:501-508). -/
def applyMethodResult (r : Row) (m : CompMethod) (res : MethodResult) : Row :=
  let r := Row.set r (msizeKey m) (toString res.output_size_bytes)
  let r := Row.set r (mexitKey m) (toString res.exit_code)
  Row.set r (mwallKey m) (formatWall res.wall_seconds)

/-- `"|".join(selected_methods) if selected_methods else "none"`. -/
def joinMethods (selected : List CompMethod) : String :=
  if selected.isEmpty then "none" else String.intercalate "|" (selected.map methodName)

/-- All field updates applied to the found-or-fresh row
(vcf_rdfizer.py:476-508). -/
def mutateRow (combined : ℤ) (selected : List CompMethod)
    (results : List (CompMethod × MethodResult)) (r : Row) : Row :=
  let r := Row.set r "combined_nq_size_bytes" (toString combined)
  let r := Row.set r "compression_methods" (joinMethods selected)
  let r := applyDefaults r
  results.foldl (fun r p => applyMethodResult r p.1 p.2) r

/-- The fresh row appended when no (run_id, output_name) match exists
(vcf_rdfizer.py:468-474): all canonical fields empty, then the four
identifying fields populated. -/
def freshRow (rid ts oname odir : String) : Row :=
  let blank : Row := METRICS_HEADER.map (fun k => (k, ""))
  Row.set (Row.set (Row.set (Row.set blank "run_id" rid) "timestamp" ts) "output_name" oname)
    "output_dir" odir

/-- The match test of the upsert scan (vcf_rdfizer.py:463-466):
`existing.get("run_id") == run_id and existing.get("output_name") == output_name`. -/
def rowMatches (rid oname : String) (r : Row) : Bool :=
  Row.get r "run_id" == some rid && Row.get r "output_name" == some oname

/-- Apply `f` to the first row satisfying `p`, in place; `none` when no
row matches (the in-place dict mutation of the found row). -/
def updateFirst (p : Row → Bool) (f : Row → Row) : List Row → Option (List Row)
  | [] => none
  | r :: rs => if p r then some (f r :: rs) else (updateFirst p f rs).map (r :: ·)

/-- `csv.DictWriter(handle, fieldnames=METRICS_HEADER).writerows`: each
dict is written projected onto the canonical columns, missing keys as
empty strings (`restval`). -/
def projectRow (r : Row) : Row :=
  METRICS_HEADER.map (fun k => (k, (Row.get r k).getD ""))

/-- What one call of `update_metrics_csv_with_compression` writes: the
optional header-mismatch backup (name and verbatim content) and the
rewritten ledger file. -/
structure LedgerWrite where
  backup : Option (String × CsvFile)
  written : CsvFile
deriving DecidableEq

/-- `update_metrics_csv_with_compression` (vcf_rdfizer.py:434-513) as a
pure function of the current ledger file content (`none` = file does not
exist).  `ledgerName` is the file name of the ledger, used for the backup
name.  A `CsvFile` with an empty `header` models an existing empty file
(`reader.fieldnames` is `None`, so `or METRICS_HEADER` applies). -/
def update_metrics_csv_with_compression (ledgerName : String) (file0 : Option CsvFile)
    (run_id timestamp output_name output_dir : String) (combined_size_bytes : ℤ)
    (selected_methods : List CompMethod)
    (method_results : List (CompMethod × MethodResult)) : LedgerWrite :=
  let f := file0.getD ⟨METRICS_HEADER, []⟩
  let fieldnames := if f.header.isEmpty then METRICS_HEADER else f.header
  let reset := fieldnames ≠ METRICS_HEADER
  let backup : Option (String × CsvFile) :=
    if reset then some (ledgerName ++ ".bak-" ++ run_id, f) else none
  let rows := if reset then [] else f.rows
  let mutate := mutateRow combined_size_bytes selected_methods method_results
  let rows' :=
    match updateFirst (rowMatches run_id output_name) mutate rows with
    | some rs => rs
    | none => rows ++ [mutate (freshRow run_id timestamp output_name output_dir)]
  { backup := backup, written := ⟨METRICS_HEADER, rows'.map projectRow⟩ }

-- Sanity checks (scratch).
example :
    (update_metrics_csv_with_compression "metrics.csv" none "r1" "t1" "sample" "/out/sample"
      (42 : ℤ) [.gzip] [(.gzip, ⟨0, some (mkRat 1 4), "/out/sample/sample.nt.gz", 10⟩)]).backup
      = none := by decide
example :
    ((update_metrics_csv_with_compression "metrics.csv" none "r1" "t1" "sample" "/out/sample"
      (42 : ℤ) [.gzip] [(.gzip, ⟨0, some (mkRat 1 4), "/out/sample/sample.nt.gz", 10⟩)]).written.rows.map
        (fun r => Row.get r "wall_seconds_gzip"))
      = [some "0.250000"] := by decide
example :
    (update_metrics_csv_with_compression "metrics.csv" (some ⟨["bogus"], [[("bogus", "x")]]⟩)
      "r1" "t1" "sample" "/out/sample" (0 : ℤ) [] []).backup
      = some ("metrics.csv.bak-r1", ⟨["bogus"], [[("bogus", "x")]]⟩) := by decide

/-! ## Triplet discovery (`discover_tsv_triplets`) -/

/-- A discovered per-input artifact triplet (vcf_rdfizer.py:360-367),
with file names relative to the TSV directory. -/
structure Triplet where
  pfx : String
  records : String
  headers : String
  metadata : String
deriving DecidableEq, Repr

/-- The `ValueError`s raised by `discover_tsv_triplets`.  For
`noRecords`, `preview` is the diagnostic enumeration of the `*.tsv`
files present (`"(none)"` when there are none). -/
inductive TripletError where
  | missingHeader (pfx : String) (missingName : String)
  | missingMetadata (pfx : String) (missingName : String)
  | noRecords (preview : String)
deriving DecidableEq, Repr

/-- `tsv_dir.glob(pat)` for a `*.suffix` pattern, then `sorted`: names
with the given ending, excluding dotfiles (glob `*` does not match a
leading dot), in sorted order. -/
def globSorted (names : List String) (ending : String) : List String :=
  sortStrings (names.filter (fun n => strEndsWith n ending && !strStartsWith n "."))

/-- The per-records-file loop of `discover_tsv_triplets`
(vcf_rdfizer.py:352-367): check both siblings of each records file in
turn, failing on the first missing one. -/
def discoverLoop (names : List String) : List String → Except TripletError (List Triplet)
  | [] => .ok []
  | rname :: rest =>
      let pfx := strDropRight rname 12
      let hname := pfx ++ ".header_lines.tsv"
      let mname := pfx ++ ".file_metadata.tsv"
      if ¬ names.contains hname then .error (.missingHeader pfx hname)
      else if ¬ names.contains mname then .error (.missingMetadata pfx mname)
      else (discoverLoop names rest).map (⟨pfx, rname, hname, mname⟩ :: ·)

/-- `discover_tsv_triplets` (vcf_rdfizer.py:350-377) over a directory
listing. -/
def discover_tsv_triplets (names : List String) : Except TripletError (List Triplet) :=
  match discoverLoop names (globSorted names ".records.tsv") with
  | .error e => .error e
  | .ok ts =>
      if ts.isEmpty then
        let tsvFiles := globSorted names ".tsv"
        .error (.noRecords (if tsvFiles.isEmpty then "(none)"
                            else String.intercalate ", " tsvFiles))
      else .ok ts

-- Sanity checks (scratch).
example :
    discover_tsv_triplets ["sample.records.tsv"]
      = .error (.missingHeader "sample" "sample.header_lines.tsv") := by decide
example :
    discover_tsv_triplets ["notes.tsv", "a.tsv"]
      = .error (.noRecords "a.tsv, notes.tsv") := by decide
example : discover_tsv_triplets [] = .error (.noRecords "(none)") := by decide
example :
    discover_tsv_triplets
      ["sample.records.tsv", "sample.header_lines.tsv", "sample.file_metadata.tsv"]
      = .ok [⟨"sample", "sample.records.tsv", "sample.header_lines.tsv",
             "sample.file_metadata.tsv"⟩] := by decide

/-! ## Compression naming and aggregation
(`run_compression_methods_for_rdf`) -/

/-- The per-method output file name (vcf_rdfizer.py:663-672). -/
def outputNameFor (stem ext : String) : CompMethod → String
  | .gzip => stem ++ "." ++ ext ++ ".gz"
  | .brotli => stem ++ "." ++ ext ++ ".br"
  | .hdt => stem ++ ".hdt"

/-- `rdf_path.suffix.lstrip(".") or "nt"` (vcf_rdfizer.py:655). -/
def rdfInputExt (name : String) : String :=
  let e := lstripDots (pySuffix name)
  if e = "" then "nt" else e

/-- External-effect oracle for one compression stage: exit code and
wall-clock duration of each method command, and file sizes on the host
filesystem after it ran. -/
structure CompEnv where
  exitOf : CompMethod → ℤ
  wallOf : CompMethod → ℚ
  sizeOf : String → Option ℤ

/-- The method result recorded for one command
(vcf_rdfizer.py:696-705). -/
def compResult (env : CompEnv) (stem ext targetDirPath : String) (m : CompMethod) :
    MethodResult :=
  let oname := outputNameFor stem ext m
  { exit_code := env.exitOf m
    wall_seconds := some (env.wallOf m)
    output_path := targetDirPath ++ "/" ++ oname
    output_size_bytes := (env.sizeOf (targetDirPath ++ "/" ++ oname)).getD 0 }

/-- The method loop of `run_compression_methods_for_rdf`
(vcf_rdfizer.py:662-712): record each result, and stop after the first
non-zero exit code with `False` (the failing method included in the
results). -/
def runCompLoop (env : CompEnv) (stem ext targetDirPath : String) :
    List CompMethod → Bool × List (CompMethod × MethodResult)
  | [] => (true, [])
  | m :: rest =>
      let res := compResult env stem ext targetDirPath m
      if res.exit_code ≠ 0 then (false, [(m, res)])
      else
        let r := runCompLoop env stem ext targetDirPath rest
        (r.1, (m, res) :: r.2)

/-- `run_compression_methods_for_rdf` (vcf_rdfizer.py:643-712):
`rdfName` is the RDF source file name, `outDirPath` the host output
directory; per-method outputs go to `<outDirPath>/<stem>/`. -/
def run_compression_methods_for_rdf (env : CompEnv) (rdfName outDirPath : String)
    (methods : List CompMethod) : Bool × List (CompMethod × MethodResult) :=
  let stem := pyStem rdfName
  let ext := rdfInputExt rdfName
  runCompLoop env stem ext (outDirPath ++ "/" ++ stem) methods

/-- `run_compress_mode` (vcf_rdfizer.py:957-988): the return code of
compression-only mode. -/
def run_compress_mode (env : CompEnv) (nqName outDirPath : String)
    (methods : List CompMethod) : ℤ :=
  if methods.isEmpty then 0
  else if (run_compression_methods_for_rdf env nqName outDirPath methods).1 then 0 else 1

/-! ## Decompression (`detect_compressed_format`,
`default_decompressed_name`, `run_decompress_mode`) -/

/-- `detect_compressed_format` (vcf_rdfizer.py:991-998), on the file
name; `.error ()` is the `ValueError` for an unrecognized ending. -/
def detect_compressed_format (name : String) : Except Unit String :=
  if strEndsWith name ".nq.gz" || strEndsWith name ".nt.gz" || pySuffix name = ".gz" then
    .ok "gzip"
  else if strEndsWith name ".nq.br" || strEndsWith name ".nt.br" || pySuffix name = ".br" then
    .ok "brotli"
  else if pySuffix name = ".hdt" then .ok "hdt"
  else .error ()

/-- `default_decompressed_name` (vcf_rdfizer.py:1001-1014). -/
def default_decompressed_name (name fmt : String) : String :=
  if fmt = "gzip" then
    if strEndsWith name ".nq.gz" then strDropRight name 3
    else if strEndsWith name ".nt.gz" then strDropRight name 3
    else pyStem name ++ ".nt"
  else if fmt = "brotli" then
    if strEndsWith name ".nq.br" then strDropRight name 3
    else if strEndsWith name ".nt.br" then strDropRight name 3
    else pyStem name ++ ".nt"
  else pyStem name ++ ".nt"

/-- `run_decompress_mode` (vcf_rdfizer.py:1017-1063) reduced to its
return-code contract: the decompression tool's exit code is mapped to a
fixed `1` on failure and `0` on success. -/
def run_decompress_mode (toolExit : ℤ) : ℤ :=
  if toolExit ≠ 0 then 1 else 0

/-- `pathlib.PurePath.parent` as a path string. -/
def parentDir (p : String) : String :=
  let parts := splitCharAux '/' p.data []
  if parts.length ≤ 1 then "." else String.intercalate "/" (parts.dropLast.map (⟨·⟩))

/-- The decompress-mode validation slice of `main`
(vcf_rdfizer.py:1205-1226): every `ValueError` is caught and mapped to
exit code 2, before the command logger starts and before any external
command runs.  On success it yields the compressed path and the
decompression output path. -/
def mainDecompressValidate (env : FsEnv) (compressedArg : Option String)
    (decompressOutArg : Option String) (outDirPath : String) :
    Except ℤ (String × String) :=
  match compressedArg with
  | none => .error 2
  | some cp =>
      if ¬ (env.pathExists cp && env.isFile cp) then .error 2
      else
        match detect_compressed_format (baseName cp) with
        | .error _ => .error 2
        | .ok fmt =>
            let dout :=
              match decompressOutArg with
              | none =>
                  let dn := default_decompressed_name (baseName cp) fmt
                  outDirPath ++ "/" ++ pyStem dn ++ "/" ++ dn
              | some d => d
            if env.pathExists dout && env.isDir dout then .error 2
            else if env.pathExists (parentDir dout) && ¬ env.isDir (parentDir dout) then
              .error 2
            else .ok (cp, dout)

-- Sanity checks (scratch).
example : detect_compressed_format "sample.nq.gz" = .ok "gzip" := by decide
example : detect_compressed_format ".gz" = .error () := by decide
example : detect_compressed_format "x.hdt" = .ok "hdt" := by decide
example : default_decompressed_name "sample.nq.gz" "gzip" = "sample.nq" := by decide
example : default_decompressed_name "sample.hdt" "hdt" = "sample.nt" := by decide
example : default_decompressed_name "archive.gz" "gzip" = "archive.nt" := by decide
example :
    (run_compression_methods_for_rdf
      ⟨fun _ => 0, fun _ => 1, fun _ => some 5⟩ "sample.nt" "/out"
      [.gzip, .brotli, .hdt]).2.map (fun p => baseName p.2.output_path)
      = ["sample.nt.gz", "sample.nt.br", "sample.hdt"] := by decide

/-! ## Full-pipeline mode (`run_full_mode`)

The per-input loop of vcf_rdfizer.py:715-954, with external effects
(container commands, filesystem state) supplied by an oracle and the
observable side effects recorded as a trace of events. -/

/-- Observable side effects of a full-mode run. -/
inductive Event where
  | tsvStep (idx : Nat) (input : String) (exitCode : ℤ)
  | renderRules (idx : Nat) (pfx : String) (records headers metadata : String)
  | rdfStep (idx : Nat) (outputName : String) (exitCode : ℤ)
  | wroteArtifacts (idx : Nat) (outputName : String)
      (results : List (CompMethod × MethodResult))
  | wroteLedger (idx : Nat) (outputName : String)
  | removedRdfFile (idx : Nat) (path : String)
  | removedTsvFile (idx : Nat) (path : String)
  | removedTsvDir
  | notedTsvDirKept
  | errorTsv (idx : Nat)
  | errorDiscover (idx : Nat) (e : TripletError)
  | errorMissingTriplet (idx : Nat) (pfx : String)
  | errorRdf (idx : Nat) (pfx : String)
  | errorCompression (idx : Nat)
  | errorMetricsPermission (idx : Nat)
  | errorRemoveFile (idx : Nat) (path : String)
deriving DecidableEq

/-- External-effect oracle for a full-mode run.  `tsvDirAfter idx` is the
TSV directory listing when discovery runs for input `idx`;
`pathSnapshot idx` and `sizeOf idx` are the filesystem existence and
size views during input `idx`; `removeOk` is whether
`remove_file_with_docker_fallback` succeeds for a path;
`tsvDirExisted` is `tsv_dir.exists()` captured before `ensure_dir`
(vcf_rdfizer.py:735). -/
structure FullEnv where
  tsvExit : Nat → ℤ
  tsvDirAfter : Nat → List String
  rdfExit : Nat → ℤ
  pathSnapshot : Nat → String → Bool
  comp : Nat → CompEnv
  sizeOf : Nat → String → Option ℤ
  metricsWriteOk : Nat → Bool
  removeOk : String → Bool
  tsvDirExisted : Bool

/-- The arguments of `run_full_mode` the model retains. -/
structure FullArgs where
  containerInputs : List String
  expectedPfxs : List String
  outDirPath : String
  tsvDirPath : String
  metricsDirPath : String
  outName : String
  compression : String
  keepTsv : Bool
  keepRdf : Bool
  runId : String
  timestamp : String
deriving DecidableEq

/-- The remove-if-exists loops of `run_full_mode`
(vcf_rdfizer.py:898-910 and 935-945): each existing path is removed via
`remove_file_with_docker_fallback`; the first failure aborts with return
code 1. -/
def removeExistingFiles (pathExists removeOk : String → Bool) (okEv errEv : String → Event) :
    List String → List Event × Bool
  | [] => ([], true)
  | p :: ps =>
      if pathExists p then
        if removeOk p then
          let r := removeExistingFiles pathExists removeOk okEv errEv ps
          (okEv p :: r.1, r.2)
        else ([errEv p], false)
      else removeExistingFiles pathExists removeOk okEv errEv ps

/-- `output_name = safe_prefix or slugify(out_name)`
(vcf_rdfizer.py:787,797). -/
def outputNameOf (args : FullArgs) (t : Triplet) : String :=
  let safePfx := slugify t.pfx
  if safePfx = "" then slugify args.outName else safePfx

/-- The host path of the merged N-Triples output
(vcf_rdfizer.py:836). -/
def ntPathOf (args : FullArgs) (outputName : String) : String :=
  args.outDirPath ++ "/" ++ outputName ++ "/" ++ outputName ++ ".nt"

/-- The host path of the merged N-Quads output (vcf_rdfizer.py:837). -/
def nqPathOf (args : FullArgs) (outputName : String) : String :=
  args.outDirPath ++ "/" ++ outputName ++ "/" ++ outputName ++ ".nq"

/-- The compression-source selection (vcf_rdfizer.py:839-845): prefer
the `.nt` file, fall back to `.nq`, default to the expected `.nt`. -/
def srcNameOf (env : FullEnv) (args : FullArgs) (idx : Nat) (outputName : String) : String :=
  if env.pathSnapshot idx (ntPathOf args outputName) then outputName ++ ".nt"
  else if env.pathSnapshot idx (nqPathOf args outputName) then outputName ++ ".nq"
  else outputName ++ ".nt"

/-- The compression stage of one full-mode iteration
(vcf_rdfizer.py:847-856): skipped entirely when no methods are
selected. -/
def compRunOf (env : FullEnv) (args : FullArgs) (selected : List CompMethod) (idx : Nat)
    (outputName : String) : Bool × List (CompMethod × MethodResult) :=
  if selected.isEmpty then (true, [])
  else run_compression_methods_for_rdf (env.comp idx) (srcNameOf env args idx outputName)
    args.outDirPath selected

/-- The raw-RDF cleanup of one iteration (vcf_rdfizer.py:898-910):
remove existing `.nt`/`.nq` only when `--keep-rdf` is unset and methods
were selected. -/
def rdfCleanupOf (env : FullEnv) (args : FullArgs) (selected : List CompMethod) (idx : Nat)
    (outputName : String) : List Event × Bool :=
  if ¬ args.keepRdf ∧ ¬ selected.isEmpty then
    removeExistingFiles (env.pathSnapshot idx) env.removeOk
      (.removedRdfFile idx) (.errorRemoveFile idx)
      [ntPathOf args outputName, nqPathOf args outputName]
  else ([], true)

/-- The per-triplet TSV cleanup of one iteration
(vcf_rdfizer.py:935-945). -/
def tsvCleanupOf (env : FullEnv) (args : FullArgs) (idx : Nat) (t : Triplet) :
    List Event × Bool :=
  if ¬ args.keepTsv then
    removeExistingFiles (env.pathSnapshot idx) env.removeOk
      (.removedTsvFile idx) (.errorRemoveFile idx)
      [args.tsvDirPath ++ "/" ++ t.records, args.tsvDirPath ++ "/" ++ t.headers,
       args.tsvDirPath ++ "/" ++ t.metadata]
  else ([], true)

/-- One iteration of the full-mode per-input loop
(vcf_rdfizer.py:748-945) for input `idx`: TSV stage, triplet discovery
and matching, rules templating, RDF stage, compression, metrics writes,
and per-input cleanup.  Returns the ledger after the iteration, the
events, and `some code` when the iteration makes `run_full_mode` return
early with `code`. -/
def fullStep (env : FullEnv) (args : FullArgs) (selected : List CompMethod)
    (ledger : Option CsvFile) (idx : Nat) (cinput pfx0 : String) :
    Option CsvFile × List Event × Option ℤ :=
  let ev0 := [Event.tsvStep idx cinput (env.tsvExit idx)]
  if env.tsvExit idx ≠ 0 then (ledger, ev0 ++ [.errorTsv idx], some 1)
  else
    match discover_tsv_triplets (env.tsvDirAfter idx) with
    | .error e => (ledger, ev0 ++ [.errorDiscover idx e], some 1)
    | .ok triplets =>
        -- `{t["prefix"]: t for t in tsv_triplets}` then a key lookup:
        -- with duplicate prefixes the dict keeps the last entry.
        match triplets.reverse.find? (fun t => t.pfx == pfx0) with
        | none => (ledger, ev0 ++ [.errorMissingTriplet idx pfx0], some 1)
        | some triplet =>
            let ev1 := ev0 ++
              [.renderRules idx triplet.pfx triplet.records triplet.headers triplet.metadata]
            let outputName := outputNameOf args triplet
            let ev2 := ev1 ++ [.rdfStep idx outputName (env.rdfExit idx)]
            if env.rdfExit idx ≠ 0 then (ledger, ev2 ++ [.errorRdf idx triplet.pfx], some 1)
            else
              let compRun := compRunOf env args selected idx outputName
              if ¬ compRun.1 then (ledger, ev2 ++ [.errorCompression idx], some 1)
              else
                let srcPath := args.outDirPath ++ "/" ++ outputName ++ "/" ++
                  srcNameOf env args idx outputName
                let srcSize := (env.sizeOf idx srcPath).getD 0
                if ¬ env.metricsWriteOk idx then
                  (ledger, ev2 ++ [.errorMetricsPermission idx], some 1)
                else
                  let lw := update_metrics_csv_with_compression "metrics.csv" ledger
                    args.runId args.timestamp outputName
                    (args.outDirPath ++ "/" ++ outputName) srcSize selected compRun.2
                  let ledger1 := some lw.written
                  let ev3 := ev2 ++
                    [.wroteArtifacts idx outputName compRun.2, .wroteLedger idx outputName]
                  let rc := rdfCleanupOf env args selected idx outputName
                  if ¬ rc.2 then (ledger1, ev3 ++ rc.1, some 1)
                  else
                    let ev4 := ev3 ++ rc.1
                    let tc := tsvCleanupOf env args idx triplet
                    if ¬ tc.2 then (ledger1, ev4 ++ tc.1, some 1)
                    else (ledger1, ev4 ++ tc.1, none)

/-- The full-mode loop over the zipped (container input, expected
output name) snapshot, followed by the end-of-run TSV directory cleanup
(vcf_rdfizer.py:947-954). -/
def runFullLoop (env : FullEnv) (args : FullArgs) (selected : List CompMethod) :
    Nat → Option CsvFile → List Event → List (String × String) →
    ℤ × Option CsvFile × List Event
  | _, ledger, acc, [] =>
      if ¬ args.keepTsv then
        if ¬ env.tsvDirExisted then (0, ledger, acc ++ [.removedTsvDir])
        else (0, ledger, acc ++ [.notedTsvDirKept])
      else (0, ledger, acc)
  | idx, ledger, acc, (cin, pfx) :: rest =>
      match fullStep env args selected ledger idx cin pfx with
      | (ledger1, evs, some code) => (code, ledger1, acc ++ evs)
      | (ledger1, evs, none) => runFullLoop env args selected (idx + 1) ledger1 (acc ++ evs) rest

/-- The observable outcome of a full-mode run. -/
structure RunOut where
  exitCode : ℤ
  ledger : Option CsvFile
  trace : List Event
deriving DecidableEq

/-- `run_full_mode` (vcf_rdfizer.py:715-954).  `ledger0` is the metrics
CSV content at run start.  A `ParseErr` models the uncaught `ValueError`
from `parse_compression_methods` (unreachable from `main`, which
validates the compression string first). -/
def run_full_mode (env : FullEnv) (args : FullArgs) (ledger0 : Option CsvFile) :
    Except ParseErr RunOut :=
  match parse_compression_methods args.compression with
  | .error e => .error e
  | .ok ms =>
      let selected := ms.filterMap strToMethod
      let r := runFullLoop env args selected 0 ledger0 []
        (args.containerInputs.zip args.expectedPfxs)
      .ok ⟨r.1, r.2.1, r.2.2⟩

/-! ## Lemmas: association-list rows -/

/-- `Row.get` after `Row.set`: the set key reads back the new value,
every other key is unaffected. -/
theorem Row.get_set (r : Row) (k v k' : String) :
    Row.get (Row.set r k v) k' = if k' = k then some v else Row.get r k' := by
  induction r with
  | nil =>
      simp only [Row.set, Row.get]
      by_cases h : k' = k
      · subst h; simp
      · simp [h, Ne.symm h]
  | cons p rest ih =>
      obtain ⟨k₁, v₁⟩ := p
      by_cases h₁ : k₁ = k
      · subst h₁
        simp only [Row.set, if_pos rfl, Row.get]
        by_cases h : k' = k₁
        · subst h; simp
        · simp [h, Ne.symm h]
      · simp only [Row.set, if_neg h₁, Row.get]
        by_cases h : k₁ = k'
        · subst h
          simp [h₁]
        · simp [h, ih]

/-- Lookup in a row built by tagging each key of `ks` with `f`. -/
theorem Row.get_keyMap (ks : List String) (f : String → String) (k : String) :
    Row.get (ks.map fun x => (x, f x)) k = if k ∈ ks then some (f k) else none := by
  induction ks with
  | nil => simp [Row.get]
  | cons a tl ih =>
      simp only [List.map_cons, Row.get]
      by_cases h : a = k
      · subst h; simp
      · simp [h, Ne.symm h, ih]

/-- A key present in a row reads back some value. -/
theorem Row.get_mem (r : Row) (k : String) (h : k ∈ r.map Prod.fst) :
    ∃ v, Row.get r k = some v := by
  induction r with
  | nil => simp at h
  | cons p rest ih =>
      obtain ⟨k₁, v₁⟩ := p
      by_cases hk : k₁ = k
      · exact ⟨v₁, by simp [Row.get, hk]⟩
      · simp only [List.map_cons, List.mem_cons] at h
        rcases h with h | h
        · exact absurd h.symm hk
        · simpa [Row.get, hk] using ih h

/-- The keys of a projected row are exactly the canonical header. -/
theorem projectRow_keys (r : Row) : (projectRow r).map Prod.fst = METRICS_HEADER := by
  simp [projectRow, Function.comp_def]

/-- Reading a canonical column of a projected row. -/
theorem Row.get_projectRow (r : Row) (k : String) (h : k ∈ METRICS_HEADER) :
    Row.get (projectRow r) k = some ((Row.get r k).getD "") := by
  simp [projectRow, Row.get_keyMap, h]

/-- The three per-method key families never collide across families. -/
theorem msizeKey_ne_mexitKey : ∀ m m' : CompMethod, msizeKey m ≠ mexitKey m' := by decide

/-- Size keys never equal wall keys. -/
theorem msizeKey_ne_mwallKey : ∀ m m' : CompMethod, msizeKey m ≠ mwallKey m' := by decide

/-- Exit keys never equal wall keys. -/
theorem mexitKey_ne_mwallKey : ∀ m m' : CompMethod, mexitKey m ≠ mwallKey m' := by decide

/-- Size keys are injective in the method. -/
theorem msizeKey_inj : ∀ m m' : CompMethod, msizeKey m = msizeKey m' → m = m' := by decide

/-- Exit keys are injective in the method. -/
theorem mexitKey_inj : ∀ m m' : CompMethod, mexitKey m = mexitKey m' → m = m' := by decide

/-- Wall keys are injective in the method. -/
theorem mwallKey_inj : ∀ m m' : CompMethod, mwallKey m = mwallKey m' → m = m' := by decide

/-- A fold of `Row.set`s over bindings whose keys avoid `k` leaves `k`
unchanged. -/
theorem Row.get_foldl_set_not_mem (ps : List (String × String)) (r : Row) (k : String)
    (h : k ∉ ps.map Prod.fst) :
    Row.get (ps.foldl (fun r p => Row.set r p.1 p.2) r) k = Row.get r k := by
  induction ps generalizing r with
  | nil => rfl
  | cons p tl ih =>
      simp only [List.map_cons, List.mem_cons, not_or] at h
      simp only [List.foldl_cons]
      rw [ih _ h.2, Row.get_set, if_neg (fun hc => h.1 hc)]

/-- A fold of `Row.set`s over distinct-keyed bindings containing `(k, v)`
sets `k` to `v`. -/
theorem Row.get_foldl_set_mem (ps : List (String × String)) (r : Row) (k v : String)
    (hnd : (ps.map Prod.fst).Nodup) (hmem : (k, v) ∈ ps) :
    Row.get (ps.foldl (fun r p => Row.set r p.1 p.2) r) k = some v := by
  induction ps generalizing r with
  | nil => simp at hmem
  | cons p tl ih =>
      simp only [List.map_cons, List.nodup_cons] at hnd
      simp only [List.mem_cons] at hmem
      simp only [List.foldl_cons]
      rcases hmem with hmem | hmem
      · subst hmem
        rw [Row.get_foldl_set_not_mem _ _ _ hnd.1, Row.get_set, if_pos rfl]
      · exact ih _ hnd.2 hmem

/-- Reading a key untouched by `applyMethodResult` for method `m`. -/
theorem Row.get_applyMethodResult_other (r : Row) (m : CompMethod) (res : MethodResult)
    (k : String) (h1 : k ≠ msizeKey m) (h2 : k ≠ mexitKey m) (h3 : k ≠ mwallKey m) :
    Row.get (applyMethodResult r m res) k = Row.get r k := by
  simp [applyMethodResult, Row.get_set, h1, h2, h3]

/-- The fields written by `applyMethodResult` for method `m`. -/
theorem Row.get_applyMethodResult_self (r : Row) (m : CompMethod) (res : MethodResult) :
    Row.get (applyMethodResult r m res) (msizeKey m) = some (toString res.output_size_bytes) ∧
    Row.get (applyMethodResult r m res) (mexitKey m) = some (toString res.exit_code) ∧
    Row.get (applyMethodResult r m res) (mwallKey m) = some (formatWall res.wall_seconds) := by
  refine ⟨?_, ?_, ?_⟩ <;>
    simp [applyMethodResult, Row.get_set, msizeKey_ne_mexitKey m m,
      msizeKey_ne_mwallKey m m, mexitKey_ne_mwallKey m m,
      (msizeKey_ne_mexitKey m m).symm, (msizeKey_ne_mwallKey m m).symm,
      (mexitKey_ne_mwallKey m m).symm]

/-- The method-results fold leaves keys outside all method-field families
unchanged. -/
theorem Row.get_foldl_methods_untouched (l : List (CompMethod × MethodResult)) (r : Row)
    (k : String) (h : ∀ m : CompMethod, k ≠ msizeKey m ∧ k ≠ mexitKey m ∧ k ≠ mwallKey m) :
    Row.get (l.foldl (fun r p => applyMethodResult r p.1 p.2) r) k = Row.get r k := by
  induction l generalizing r with
  | nil => rfl
  | cons p tl ih =>
      simp only [List.foldl_cons]
      rw [ih, Row.get_applyMethodResult_other _ _ _ _ (h p.1).1 (h p.1).2.1 (h p.1).2.2]

/-- The method-results fold leaves the fields of a method absent from the
results unchanged. -/
theorem Row.get_foldl_methods_absent (l : List (CompMethod × MethodResult)) (r : Row)
    (m : CompMethod) (hm : m ∉ l.map Prod.fst) :
    Row.get (l.foldl (fun r p => applyMethodResult r p.1 p.2) r) (msizeKey m)
        = Row.get r (msizeKey m) ∧
    Row.get (l.foldl (fun r p => applyMethodResult r p.1 p.2) r) (mexitKey m)
        = Row.get r (mexitKey m) ∧
    Row.get (l.foldl (fun r p => applyMethodResult r p.1 p.2) r) (mwallKey m)
        = Row.get r (mwallKey m) := by
  induction l generalizing r with
  | nil => exact ⟨rfl, rfl, rfl⟩
  | cons p tl ih =>
      simp only [List.map_cons, List.mem_cons, not_or] at hm
      simp only [List.foldl_cons]
      obtain ⟨i1, i2, i3⟩ := ih (applyMethodResult r p.1 p.2) hm.2
      refine ⟨?_, ?_, ?_⟩
      · rw [i1]
        exact Row.get_applyMethodResult_other _ _ _ _
          (fun hc => hm.1 (msizeKey_inj _ _ hc))
          (msizeKey_ne_mexitKey m p.1)
          (msizeKey_ne_mwallKey m p.1)
      · rw [i2]
        exact Row.get_applyMethodResult_other _ _ _ _
          (Ne.symm (msizeKey_ne_mexitKey p.1 m))
          (fun hc => hm.1 (mexitKey_inj _ _ hc))
          (mexitKey_ne_mwallKey m p.1)
      · rw [i3]
        exact Row.get_applyMethodResult_other _ _ _ _
          (Ne.symm (msizeKey_ne_mwallKey p.1 m))
          (Ne.symm (mexitKey_ne_mwallKey p.1 m))
          (fun hc => hm.1 (mwallKey_inj _ _ hc))

/-- With distinct method keys, the results fold writes exactly the looked
up result of each present method. -/
theorem Row.get_foldl_methods_lookup (l : List (CompMethod × MethodResult)) (r : Row)
    (m : CompMethod) (res : MethodResult) (hnd : (l.map Prod.fst).Nodup)
    (hl : l.lookup m = some res) :
    Row.get (l.foldl (fun r p => applyMethodResult r p.1 p.2) r) (msizeKey m)
        = some (toString res.output_size_bytes) ∧
    Row.get (l.foldl (fun r p => applyMethodResult r p.1 p.2) r) (mexitKey m)
        = some (toString res.exit_code) ∧
    Row.get (l.foldl (fun r p => applyMethodResult r p.1 p.2) r) (mwallKey m)
        = some (formatWall res.wall_seconds) := by
  induction l generalizing r with
  | nil => simp [List.lookup] at hl
  | cons p tl ih =>
      obtain ⟨m₁, x₁⟩ := p
      simp only [List.map_cons, List.nodup_cons] at hnd
      by_cases hm : m = m₁
      · subst hm
        simp only [List.lookup, beq_self_eq_true] at hl
        obtain rfl : x₁ = res := by simpa using hl
        simp only [List.foldl_cons]
        obtain ⟨a1, a2, a3⟩ :=
          Row.get_foldl_methods_absent tl (applyMethodResult r m x₁) m hnd.1
        obtain ⟨s1, s2, s3⟩ := Row.get_applyMethodResult_self r m x₁
        exact ⟨by rw [a1, s1], by rw [a2, s2], by rw [a3, s3]⟩
      · have : (m == m₁) = false := by simpa using fun hc : m = m₁ => hm hc
        simp only [List.lookup, this] at hl
        simp only [List.foldl_cons]
        exact ih (applyMethodResult r m₁ x₁) hnd.2 hl

/-- A `none` lookup means the key is absent. -/
theorem lookup_none_not_mem {α β : Type} [BEq α] [LawfulBEq α] (l : List (α × β)) (a : α)
    (h : l.lookup a = none) : a ∉ l.map Prod.fst := by
  induction l with
  | nil => simp
  | cons p tl ih =>
      obtain ⟨a₁, b₁⟩ := p
      by_cases hc : a = a₁
      · subst hc; simp [List.lookup] at h
      · have : (a == a₁) = false := by simpa using hc
        simp only [List.lookup, this] at h
        simp only [List.map_cons, List.mem_cons, not_or]
        exact ⟨hc, ih h⟩

/-- The value the second upsert call leaves in a per-method size field:
the looked-up result if the method was attempted, else the `"0"`
default. -/
def sizeField (res : List (CompMethod × MethodResult)) (m : CompMethod) : String :=
  match res.lookup m with
  | some x => toString x.output_size_bytes
  | none => "0"

/-- Final per-method exit-code field value. -/
def exitField (res : List (CompMethod × MethodResult)) (m : CompMethod) : String :=
  match res.lookup m with
  | some x => toString x.exit_code
  | none => "0"

/-- Final per-method wall-seconds field value. -/
def wallField (res : List (CompMethod × MethodResult)) (m : CompMethod) : String :=
  match res.lookup m with
  | some x => formatWall x.wall_seconds
  | none => "null"

/-- `mutateRow` writes the combined size field. -/
theorem get_mutateRow_combined (c : ℤ) (sel : List CompMethod)
    (res : List (CompMethod × MethodResult)) (r : Row) :
    Row.get (mutateRow c sel res r) "combined_nq_size_bytes" = some (toString c) := by
  simp only [mutateRow]
  rw [Row.get_foldl_methods_untouched _ _ _ (by decide)]
  simp only [applyDefaults]
  rw [Row.get_foldl_set_not_mem _ _ _ (by decide), Row.get_set, Row.get_set]
  simp

/-- `mutateRow` writes the compression-methods field. -/
theorem get_mutateRow_methods (c : ℤ) (sel : List CompMethod)
    (res : List (CompMethod × MethodResult)) (r : Row) :
    Row.get (mutateRow c sel res r) "compression_methods" = some (joinMethods sel) := by
  simp only [mutateRow]
  rw [Row.get_foldl_methods_untouched _ _ _ (by decide)]
  simp only [applyDefaults]
  rw [Row.get_foldl_set_not_mem _ _ _ (by decide), Row.get_set]
  simp

/-- `mutateRow` leaves keys outside the compression-stage fields
unchanged. -/
theorem get_mutateRow_untouched (c : ℤ) (sel : List CompMethod)
    (res : List (CompMethod × MethodResult)) (r : Row) (k : String)
    (h1 : k ≠ "combined_nq_size_bytes") (h2 : k ≠ "compression_methods")
    (h3 : k ∉ compressionDefaults.map Prod.fst)
    (h4 : ∀ m : CompMethod, k ≠ msizeKey m ∧ k ≠ mexitKey m ∧ k ≠ mwallKey m) :
    Row.get (mutateRow c sel res r) k = Row.get r k := by
  simp only [mutateRow]
  rw [Row.get_foldl_methods_untouched _ _ _ h4]
  simp only [applyDefaults]
  rw [Row.get_foldl_set_not_mem _ _ _ h3, Row.get_set, Row.get_set]
  simp [h1, h2]

/-- `mutateRow` leaves each per-method field holding exactly the value
determined by the (distinct-keyed) method results. -/
theorem get_mutateRow_method (c : ℤ) (sel : List CompMethod)
    (res : List (CompMethod × MethodResult)) (r : Row)
    (hnd : (res.map Prod.fst).Nodup) (m : CompMethod) :
    Row.get (mutateRow c sel res r) (msizeKey m) = some (sizeField res m) ∧
    Row.get (mutateRow c sel res r) (mexitKey m) = some (exitField res m) ∧
    Row.get (mutateRow c sel res r) (mwallKey m) = some (wallField res m) := by
  simp only [mutateRow]
  cases hl : res.lookup m with
  | some x =>
      obtain ⟨s1, s2, s3⟩ := Row.get_foldl_methods_lookup res _ m x hnd hl
      rw [sizeField, exitField, wallField, hl]
      exact ⟨s1, s2, s3⟩
  | none =>
      have habs := lookup_none_not_mem res m hl
      obtain ⟨a1, a2, a3⟩ := Row.get_foldl_methods_absent res _ m habs
      rw [sizeField, exitField, wallField, hl]
      refine ⟨?_, ?_, ?_⟩
      · rw [a1]; simp only [applyDefaults]
        cases m <;>
          exact Row.get_foldl_set_mem _ _ _ _ (by decide) (by decide)
      · rw [a2]; simp only [applyDefaults]
        cases m <;>
          exact Row.get_foldl_set_mem _ _ _ _ (by decide) (by decide)
      · rw [a3]; simp only [applyDefaults]
        cases m <;>
          exact Row.get_foldl_set_mem _ _ _ _ (by decide) (by decide)

/-- The fresh row carries the identifying fields. -/
theorem get_freshRow_ids (rid ts oname odir : String) :
    Row.get (freshRow rid ts oname odir) "run_id" = some rid ∧
    Row.get (freshRow rid ts oname odir) "output_name" = some oname := by
  constructor <;> simp [freshRow, Row.get_set]

/-- `mutateRow` does not change whether a row matches a key. -/
theorem rowMatches_mutateRow (rid oname : String) (c : ℤ) (sel : List CompMethod)
    (res : List (CompMethod × MethodResult)) (r : Row) :
    rowMatches rid oname (mutateRow c sel res r) = rowMatches rid oname r := by
  unfold rowMatches
  rw [get_mutateRow_untouched _ _ _ _ _ (by decide) (by decide) (by decide) (by decide),
    get_mutateRow_untouched _ _ _ _ _ (by decide) (by decide) (by decide) (by decide)]

/-- Projection preserves the match status of a row whose keys are the
canonical header. -/
theorem rowMatches_projectRow_wf (rid oname : String) (r : Row)
    (hwf : r.map Prod.fst = METRICS_HEADER) :
    rowMatches rid oname (projectRow r) = rowMatches rid oname r := by
  obtain ⟨v₁, hv₁⟩ := Row.get_mem r "run_id" (by rw [hwf]; decide)
  obtain ⟨v₂, hv₂⟩ := Row.get_mem r "output_name" (by rw [hwf]; decide)
  unfold rowMatches
  rw [Row.get_projectRow _ _ (by decide), Row.get_projectRow _ _ (by decide), hv₁, hv₂]
  simp

/-- Projection of a row with definite identifying fields matches its own
key. -/
theorem rowMatches_projectRow_of_some (rid oname : String) (r : Row)
    (h1 : Row.get r "run_id" = some rid) (h2 : Row.get r "output_name" = some oname) :
    rowMatches rid oname (projectRow r) = true := by
  unfold rowMatches
  rw [Row.get_projectRow _ _ (by decide), Row.get_projectRow _ _ (by decide), h1, h2]
  simp

/-- `updateFirst` finds nothing when no row matches. -/
theorem updateFirst_eq_none (p : Row → Bool) (f : Row → Row) (l : List Row)
    (h : ∀ r ∈ l, p r = false) : updateFirst p f l = none := by
  induction l with
  | nil => rfl
  | cons r rs ih =>
      simp only [updateFirst, h r (by simp), Bool.false_eq_true, if_neg]
      rw [ih (fun x hx => h x (by simp [hx]))]
      rfl

/-- `updateFirst` on a list whose only matching row is the appended last
one updates exactly that row. -/
theorem updateFirst_append_singleton (p : Row → Bool) (f : Row → Row) (l : List Row)
    (x : Row) (h : ∀ r ∈ l, p r = false) (hx : p x = true) :
    updateFirst p f (l ++ [x]) = some (l ++ [f x]) := by
  induction l with
  | nil => simp [updateFirst, hx]
  | cons r rs ih =>
      have h0 : p r = false := h r (by simp)
      have ih2 := ih (fun y hy => h y (by simp [hy]))
      simp only [List.cons_append, updateFirst, h0, Bool.false_eq_true, if_false,
        List.append_eq]
      rw [ih2]
      rfl

/-- Every per-method field key is a canonical column. -/
theorem mkeys_mem_header : ∀ m : CompMethod,
    msizeKey m ∈ METRICS_HEADER ∧ mexitKey m ∈ METRICS_HEADER ∧ mwallKey m ∈ METRICS_HEADER := by
  decide

/-- With a canonical header the upsert takes the no-reset path: no
backup, and the rewritten rows are the in-place update or the append. -/
theorem update_of_canonical_header (name : String) (f : CsvFile)
    (rid ts oname odir : String) (c : ℤ) (sel : List CompMethod)
    (res : List (CompMethod × MethodResult)) (hh : f.header = METRICS_HEADER) :
    update_metrics_csv_with_compression name (some f) rid ts oname odir c sel res =
      ⟨none, ⟨METRICS_HEADER,
        (match updateFirst (rowMatches rid oname) (mutateRow c sel res) f.rows with
         | some rs => rs
         | none => f.rows ++ [mutateRow c sel res (freshRow rid ts oname odir)]).map
          projectRow⟩⟩ := by
  have he : METRICS_HEADER.isEmpty = false := by decide
  simp only [update_metrics_csv_with_compression, Option.getD_some, hh, he,
    Bool.false_eq_true, if_false, ne_eq, not_true_eq_false]

/-- With a non-empty non-canonical header the upsert takes the reset
path: verbatim backup under `<name>.bak-<run_id>`, previously read rows
discarded, and exactly one fresh row written. -/
theorem update_of_mismatched_header (name : String) (f : CsvFile)
    (rid ts oname odir : String) (c : ℤ) (sel : List CompMethod)
    (res : List (CompMethod × MethodResult)) (h0 : f.header ≠ [])
    (h1 : f.header ≠ METRICS_HEADER) :
    update_metrics_csv_with_compression name (some f) rid ts oname odir c sel res =
      ⟨some (name ++ ".bak-" ++ rid, f),
        ⟨METRICS_HEADER,
         [projectRow (mutateRow c sel res (freshRow rid ts oname odir))]⟩⟩ := by
  have he : f.header.isEmpty = false := by
    cases hfh : f.header with
    | nil => exact absurd hfh h0
    | cons a t => rfl
  simp only [update_metrics_csv_with_compression, Option.getD_some, he,
    Bool.false_eq_true, if_false, ne_eq, h1, not_false_eq_true, if_true,
    updateFirst, List.nil_append, List.map_cons, List.map_nil]

/-- C1: ledger upsert is key-unique and idempotent.  For a ledger file
with the canonical header, canonical-keyed rows, and no row for
`(run_id, output_name)`, two successive
`update_metrics_csv_with_compression` calls for that key leave exactly
one row for it: the first call appends one row, the second updates it in
place, and the surviving row carries the compression values of the
second call. -/
theorem upsert_key_unique_c1
    (f : CsvFile) (rid ts₁ ts₂ oname odir₁ odir₂ : String) (c₁ c₂ : ℤ)
    (sel₁ sel₂ : List CompMethod)
    (res₁ res₂ : List (CompMethod × MethodResult))
    (w₁ w₂ : LedgerWrite)
    (hh : f.header = METRICS_HEADER)
    (hwf : ∀ r ∈ f.rows, r.map Prod.fst = METRICS_HEADER)
    (hkeys : (f.rows.map fun r =>
      ((Row.get r "run_id").getD "", (Row.get r "output_name").getD "")).Nodup)
    (hfresh : ∀ r ∈ f.rows, rowMatches rid oname r = false)
    (hnd₂ : (res₂.map Prod.fst).Nodup)
    (hw₁ : w₁ = update_metrics_csv_with_compression "metrics.csv" (some f) rid ts₁ oname
      odir₁ c₁ sel₁ res₁)
    (hw₂ : w₂ = update_metrics_csv_with_compression "metrics.csv" (some w₁.written) rid ts₂
      oname odir₂ c₂ sel₂ res₂) :
    w₁.written.rows.length = f.rows.length + 1 ∧
    w₂.written.rows.length = w₁.written.rows.length ∧
    (w₂.written.rows.filter (rowMatches rid oname)).length = 1 ∧
    ∀ r ∈ w₂.written.rows, rowMatches rid oname r = true →
      Row.get r "combined_nq_size_bytes" = some (toString c₂) ∧
      Row.get r "compression_methods" = some (joinMethods sel₂) ∧
      ∀ m : CompMethod,
        Row.get r (msizeKey m) = some (sizeField res₂ m) ∧
        Row.get r (mexitKey m) = some (exitField res₂ m) ∧
        Row.get r (mwallKey m) = some (wallField res₂ m) := by
  have hfr_run : Row.get (freshRow rid ts₁ oname odir₁) "run_id" = some rid :=
    (get_freshRow_ids _ _ _ _).1
  have hfr_out : Row.get (freshRow rid ts₁ oname odir₁) "output_name" = some oname :=
    (get_freshRow_ids _ _ _ _).2
  have hmz_run :
      Row.get (mutateRow c₁ sel₁ res₁ (freshRow rid ts₁ oname odir₁)) "run_id" = some rid := by
    rw [get_mutateRow_untouched _ _ _ _ _ (by decide) (by decide) (by decide) (by decide)]
    exact hfr_run
  have hmz_out :
      Row.get (mutateRow c₁ sel₁ res₁ (freshRow rid ts₁ oname odir₁)) "output_name"
        = some oname := by
    rw [get_mutateRow_untouched _ _ _ _ _ (by decide) (by decide) (by decide) (by decide)]
    exact hfr_out
  set z := projectRow (mutateRow c₁ sel₁ res₁ (freshRow rid ts₁ oname odir₁)) with hz
  have hz_run : Row.get z "run_id" = some rid := by
    rw [hz, Row.get_projectRow _ _ (by decide), hmz_run]; rfl
  have hz_out : Row.get z "output_name" = some oname := by
    rw [hz, Row.get_projectRow _ _ (by decide), hmz_out]; rfl
  have hz_match : rowMatches rid oname z = true :=
    rowMatches_projectRow_of_some _ _ _ hmz_run hmz_out
  -- Call 1: no matching row, so a fresh row is appended.
  have hu₁ : updateFirst (rowMatches rid oname) (mutateRow c₁ sel₁ res₁) f.rows = none :=
    updateFirst_eq_none _ _ _ hfresh
  have e₁ : update_metrics_csv_with_compression "metrics.csv" (some f) rid ts₁ oname odir₁
      c₁ sel₁ res₁
      = ⟨none, ⟨METRICS_HEADER, f.rows.map projectRow ++ [z]⟩⟩ := by
    rw [update_of_canonical_header _ _ _ _ _ _ _ _ _ hh, hu₁, List.map_append,
      List.map_cons, List.map_nil]
  -- Call 2: exactly the appended row matches, so it is updated in place.
  have hfalse₁ : ∀ r ∈ f.rows.map projectRow, rowMatches rid oname r = false := by
    intro r hr
    obtain ⟨r₀, hr₀, rfl⟩ := List.mem_map.mp hr
    rw [rowMatches_projectRow_wf _ _ _ (hwf r₀ hr₀)]
    exact hfresh r₀ hr₀
  have hu₂ : updateFirst (rowMatches rid oname) (mutateRow c₂ sel₂ res₂)
      (f.rows.map projectRow ++ [z])
      = some (f.rows.map projectRow ++ [mutateRow c₂ sel₂ res₂ z]) :=
    updateFirst_append_singleton _ _ _ _ hfalse₁ hz_match
  have e₂ : update_metrics_csv_with_compression "metrics.csv"
      (some (⟨METRICS_HEADER, f.rows.map projectRow ++ [z]⟩ : CsvFile)) rid ts₂ oname odir₂
      c₂ sel₂ res₂
      = ⟨none, ⟨METRICS_HEADER,
          (f.rows.map projectRow).map projectRow
            ++ [projectRow (mutateRow c₂ sel₂ res₂ z)]⟩⟩ := by
    rw [update_of_canonical_header _ _ _ _ _ _ _ _ _ rfl]
    simp only [hu₂, List.map_append, List.map_cons, List.map_nil]
  subst hw₁
  rw [e₁] at hw₂ ⊢
  subst hw₂
  rw [e₂]
  -- Identifying fields of the twice-updated row.
  have hm₂_run : Row.get (mutateRow c₂ sel₂ res₂ z) "run_id" = some rid := by
    rw [get_mutateRow_untouched _ _ _ _ _ (by decide) (by decide) (by decide) (by decide)]
    exact hz_run
  have hm₂_out : Row.get (mutateRow c₂ sel₂ res₂ z) "output_name" = some oname := by
    rw [get_mutateRow_untouched _ _ _ _ _ (by decide) (by decide) (by decide) (by decide)]
    exact hz_out
  have hlast_match : rowMatches rid oname (projectRow (mutateRow c₂ sel₂ res₂ z)) = true :=
    rowMatches_projectRow_of_some _ _ _ hm₂_run hm₂_out
  have hfalse₂ : ∀ r ∈ (f.rows.map projectRow).map projectRow,
      rowMatches rid oname r = false := by
    intro r hr
    obtain ⟨r₀, hr₀, rfl⟩ := List.mem_map.mp hr
    obtain ⟨r₁, hr₁, rfl⟩ := List.mem_map.mp hr₀
    rw [rowMatches_projectRow_wf _ _ _ (projectRow_keys r₁),
      rowMatches_projectRow_wf _ _ _ (hwf r₁ hr₁)]
    exact hfresh r₁ hr₁
  refine ⟨by simp, by simp, ?_, ?_⟩
  · rw [List.filter_append]
    rw [List.filter_eq_nil_iff.mpr (by intro a ha; rw [hfalse₂ a ha]; simp)]
    simp [hlast_match]
  · intro r hr hmatch
    rcases List.mem_append.mp hr with hmem | hmem
    · rw [hfalse₂ r hmem] at hmatch; cases hmatch
    · have hr_eq : r = projectRow (mutateRow c₂ sel₂ res₂ z) := by simpa using hmem
      subst hr_eq
      refine ⟨?_, ?_, ?_⟩
      · rw [Row.get_projectRow _ _ (by decide), get_mutateRow_combined]; rfl
      · rw [Row.get_projectRow _ _ (by decide), get_mutateRow_methods]; rfl
      · intro m
        obtain ⟨g1, g2, g3⟩ := get_mutateRow_method c₂ sel₂ res₂ z hnd₂ m
        obtain ⟨k1, k2, k3⟩ := mkeys_mem_header m
        refine ⟨?_, ?_, ?_⟩
        · rw [Row.get_projectRow _ _ k1, g1]; rfl
        · rw [Row.get_projectRow _ _ k2, g2]; rfl
        · rw [Row.get_projectRow _ _ k3, g3]; rfl

/-- A concrete well-formed ledger row for another key, used by the C1
witness. -/
def c1Row0 : Row :=
  Row.set (Row.set (METRICS_HEADER.map fun k => (k, "")) "run_id" "r0") "output_name" "other"

/-- A concrete ledger file with canonical header for the C1 witness. -/
def c1File : CsvFile := ⟨METRICS_HEADER, [c1Row0]⟩

/-- First-call method results for the C1 witness. -/
def c1Res₁ : List (CompMethod × MethodResult) :=
  [(.gzip, ⟨0, some 1, "/out/sample/sample.nt.gz", 11⟩)]

/-- Second-call method results for the C1 witness. -/
def c1Res₂ : List (CompMethod × MethodResult) :=
  [(.gzip, ⟨0, some 2, "/out/sample/sample.nt.gz", 12⟩),
   (.brotli, ⟨0, none, "/out/sample/sample.nt.br", 13⟩)]

/-- First upsert call of the C1 witness. -/
def c1W₁ : LedgerWrite :=
  update_metrics_csv_with_compression "metrics.csv" (some c1File) "r1" "t1" "sample" "/o"
    10 [.gzip] c1Res₁

/-- Second upsert call of the C1 witness. -/
def c1W₂ : LedgerWrite :=
  update_metrics_csv_with_compression "metrics.csv" (some c1W₁.written) "r1" "t2" "sample"
    "/o" 20 [.gzip, .brotli] c1Res₂

/-- Witness for C1 at a concrete ledger and two concrete calls. -/
theorem upsert_key_unique_c1_witness :
    c1File.header = METRICS_HEADER ∧
    (∀ r ∈ c1File.rows, r.map Prod.fst = METRICS_HEADER) ∧
    (c1File.rows.map fun r =>
      ((Row.get r "run_id").getD "", (Row.get r "output_name").getD "")).Nodup ∧
    (∀ r ∈ c1File.rows, rowMatches "r1" "sample" r = false) ∧
    (c1Res₂.map Prod.fst).Nodup ∧
    (c1W₁.written.rows.length = c1File.rows.length + 1 ∧
     c1W₂.written.rows.length = c1W₁.written.rows.length ∧
     (c1W₂.written.rows.filter (rowMatches "r1" "sample")).length = 1 ∧
     ∀ r ∈ c1W₂.written.rows, rowMatches "r1" "sample" r = true →
       Row.get r "combined_nq_size_bytes" = some (toString (20 : ℤ)) ∧
       Row.get r "compression_methods" = some (joinMethods [.gzip, .brotli]) ∧
       ∀ m : CompMethod,
         Row.get r (msizeKey m) = some (sizeField c1Res₂ m) ∧
         Row.get r (mexitKey m) = some (exitField c1Res₂ m) ∧
         Row.get r (mwallKey m) = some (wallField c1Res₂ m)) :=
  ⟨by decide, by decide, by decide, by decide, by decide,
   upsert_key_unique_c1 c1File "r1" "t1" "t2" "sample" "/o" "/o" 10 20 [.gzip]
     [.gzip, .brotli] c1Res₁ c1Res₂ c1W₁ c1W₂ (by decide) (by decide) (by decide)
     (by decide) (by decide) rfl rfl⟩

/-- C2: header-mismatch recovery.  An existing ledger whose header row
differs from the canonical schema is backed up verbatim to
`<ledger-name>.bak-<run_id>`, its previously read rows are discarded
(the rewritten file holds exactly the one fresh row of this call), and
the file written by any call always begins with the canonical header. -/
theorem header_mismatch_backup_c2
    (f : CsvFile) (ledgerName rid ts oname odir : String) (c : ℤ)
    (sel : List CompMethod) (res : List (CompMethod × MethodResult))
    (h0 : f.header ≠ []) (h1 : f.header ≠ METRICS_HEADER) :
    (update_metrics_csv_with_compression ledgerName (some f) rid ts oname odir c sel
        res).backup = some (ledgerName ++ ".bak-" ++ rid, f) ∧
    (update_metrics_csv_with_compression ledgerName (some f) rid ts oname odir c sel
        res).written.rows.length = 1 ∧
    (∀ (file0 : Option CsvFile) (rid2 ts2 oname2 odir2 : String) (c2 : ℤ)
        (sel2 : List CompMethod) (res2 : List (CompMethod × MethodResult)),
      (update_metrics_csv_with_compression ledgerName file0 rid2 ts2 oname2 odir2 c2 sel2
          res2).written.header = METRICS_HEADER) := by
  rw [update_of_mismatched_header _ _ _ _ _ _ _ _ _ h0 h1]
  exact ⟨rfl, rfl, fun _ _ _ _ _ _ _ _ => rfl⟩

/-- A concrete ledger file with a legacy header for the C2 witness. -/
def c2File : CsvFile := ⟨["run_id", "old_field"], [[("run_id", "a"), ("old_field", "1")],
  [("run_id", "b"), ("old_field", "2")]]⟩

/-- Witness for C2 at a concrete mismatched ledger. -/
theorem header_mismatch_backup_c2_witness :
    c2File.header ≠ [] ∧ c2File.header ≠ METRICS_HEADER ∧
    ((update_metrics_csv_with_compression "metrics.csv" (some c2File) "20250101T000000"
        "t" "sample" "/o" 5 [] []).backup
      = some ("metrics.csv.bak-20250101T000000", c2File) ∧
     (update_metrics_csv_with_compression "metrics.csv" (some c2File) "20250101T000000"
        "t" "sample" "/o" 5 [] []).written.rows.length = 1 ∧
     (∀ (file0 : Option CsvFile) (rid2 ts2 oname2 odir2 : String) (c2 : ℤ)
        (sel2 : List CompMethod) (res2 : List (CompMethod × MethodResult)),
      (update_metrics_csv_with_compression "metrics.csv" file0 rid2 ts2 oname2 odir2 c2
          sel2 res2).written.header = METRICS_HEADER)) :=
  ⟨by decide, by decide,
   header_mismatch_backup_c2 c2File "metrics.csv" "20250101T000000" "t" "sample" "/o" 5 []
     [] (by decide) (by decide)⟩

/-- A successful discovery pass means every scanned records file had both
siblings present. -/
theorem discoverLoop_ok_siblings (names : List String) (rs : List String)
    (ts : List Triplet) (h : discoverLoop names rs = .ok ts) :
    ∀ r ∈ rs, names.contains (strDropRight r 12 ++ ".header_lines.tsv") = true ∧
      names.contains (strDropRight r 12 ++ ".file_metadata.tsv") = true := by
  induction rs generalizing ts with
  | nil => simp
  | cons r₀ tl ih =>
      intro r hr
      by_cases hH : names.contains (strDropRight r₀ 12 ++ ".header_lines.tsv") = true
      · by_cases hM : names.contains (strDropRight r₀ 12 ++ ".file_metadata.tsv") = true
        · simp only [discoverLoop, hH, hM, not_true_eq_false, Bool.false_eq_true, if_false,
            if_true] at h
          rcases List.mem_cons.mp hr with rfl | hr'
          · exact ⟨hH, hM⟩
          · cases htl : discoverLoop names tl with
            | error e => rw [htl] at h; simp [Except.map] at h
            | ok ts' => exact ih ts' htl r hr'
        · exfalso
          simp only [discoverLoop, hH, hM] at h
          simp at h
      · exfalso
        simp only [discoverLoop, hH] at h
        simp at h

/-- A discovery-pass error is a missing-sibling error for a genuinely
scanned records file whose named sibling is genuinely absent. -/
theorem discoverLoop_error_shape (names : List String) (rs : List String)
    (e : TripletError) (h : discoverLoop names rs = .error e) :
    ∃ r ∈ rs,
      (e = .missingHeader (strDropRight r 12) (strDropRight r 12 ++ ".header_lines.tsv") ∧
        names.contains (strDropRight r 12 ++ ".header_lines.tsv") = false) ∨
      (e = .missingMetadata (strDropRight r 12) (strDropRight r 12 ++ ".file_metadata.tsv") ∧
        names.contains (strDropRight r 12 ++ ".file_metadata.tsv") = false) := by
  induction rs with
  | nil => simp [discoverLoop] at h
  | cons r₀ tl ih =>
      cases hH : names.contains (strDropRight r₀ 12 ++ ".header_lines.tsv") with
      | false =>
          simp only [discoverLoop, hH, Bool.false_eq_true, not_false_eq_true, if_true,
            Except.error.injEq] at h
          exact ⟨r₀, by simp, Or.inl ⟨h.symm, hH⟩⟩
      | true =>
          cases hM : names.contains (strDropRight r₀ 12 ++ ".file_metadata.tsv") with
          | false =>
              simp only [discoverLoop, hH, hM, not_true_eq_false, Bool.false_eq_true,
                not_false_eq_true, if_false, if_true, Except.error.injEq] at h
              exact ⟨r₀, by simp, Or.inr ⟨h.symm, hM⟩⟩
          | true =>
              simp only [discoverLoop, hH, hM, not_true_eq_false, if_false] at h
              cases htl : discoverLoop names tl with
              | error e' =>
                  rw [htl] at h
                  simp only [Except.map, Except.error.injEq] at h
                  subst h
                  obtain ⟨r, hr, hcase⟩ := ih htl
                  exact ⟨r, by simp [hr], hcase⟩
              | ok ts' => rw [htl] at h; simp [Except.map] at h

/-- C6: triplet discovery errors.  Whenever a scanned
`<prefix>.records.tsv` lacks a sibling, discovery fails with an error
naming a genuinely missing sibling path of a genuinely scanned records
file; and with zero records files it fails with an error enumerating
every `*.tsv` file present (or `"(none)"`). -/
theorem triplet_discovery_errors_c6 (names : List String) :
    ((∃ r ∈ globSorted names ".records.tsv",
        names.contains (strDropRight r 12 ++ ".header_lines.tsv") = false ∨
        names.contains (strDropRight r 12 ++ ".file_metadata.tsv") = false) →
      ∃ r ∈ globSorted names ".records.tsv",
        (discover_tsv_triplets names = .error
            (.missingHeader (strDropRight r 12) (strDropRight r 12 ++ ".header_lines.tsv")) ∧
          names.contains (strDropRight r 12 ++ ".header_lines.tsv") = false) ∨
        (discover_tsv_triplets names = .error
            (.missingMetadata (strDropRight r 12)
              (strDropRight r 12 ++ ".file_metadata.tsv")) ∧
          names.contains (strDropRight r 12 ++ ".file_metadata.tsv") = false)) ∧
    (globSorted names ".records.tsv" = [] →
      discover_tsv_triplets names = .error (.noRecords
        (if (globSorted names ".tsv").isEmpty then "(none)"
         else String.intercalate ", " (globSorted names ".tsv")))) := by
  constructor
  · rintro ⟨r, hr, hbroken⟩
    cases hloop : discoverLoop names (globSorted names ".records.tsv") with
    | ok ts =>
        exfalso
        obtain ⟨sh, sm⟩ := discoverLoop_ok_siblings _ _ _ hloop r hr
        rcases hbroken with hb | hb
        · rw [sh] at hb; cases hb
        · rw [sm] at hb; cases hb
    | error e =>
        have hdisc : discover_tsv_triplets names = .error e := by
          unfold discover_tsv_triplets
          rw [hloop]
        obtain ⟨r', hr', hcase⟩ := discoverLoop_error_shape _ _ _ hloop
        refine ⟨r', hr', ?_⟩
        rcases hcase with ⟨he, hc⟩ | ⟨he, hc⟩
        · exact Or.inl ⟨by rw [hdisc, he], hc⟩
        · exact Or.inr ⟨by rw [hdisc, he], hc⟩
  · intro hempty
    unfold discover_tsv_triplets
    rw [hempty]
    rfl

/-- Witness for C6: a lone records file without its header sibling, and
a directory with no records files at all. -/
theorem triplet_discovery_errors_c6_witness :
    ((∃ r ∈ globSorted ["sample.records.tsv"] ".records.tsv",
        ["sample.records.tsv"].contains (strDropRight r 12 ++ ".header_lines.tsv") = false ∨
        ["sample.records.tsv"].contains (strDropRight r 12 ++ ".file_metadata.tsv")
          = false) ∧
      ∃ r ∈ globSorted ["sample.records.tsv"] ".records.tsv",
        (discover_tsv_triplets ["sample.records.tsv"] = .error
            (.missingHeader (strDropRight r 12) (strDropRight r 12 ++ ".header_lines.tsv")) ∧
          ["sample.records.tsv"].contains (strDropRight r 12 ++ ".header_lines.tsv")
            = false) ∨
        (discover_tsv_triplets ["sample.records.tsv"] = .error
            (.missingMetadata (strDropRight r 12)
              (strDropRight r 12 ++ ".file_metadata.tsv")) ∧
          ["sample.records.tsv"].contains (strDropRight r 12 ++ ".file_metadata.tsv")
            = false)) ∧
    (globSorted ["notes.tsv"] ".records.tsv" = [] ∧
      discover_tsv_triplets ["notes.tsv"] = .error (.noRecords
        (if (globSorted ["notes.tsv"] ".tsv").isEmpty then "(none)"
         else String.intercalate ", " (globSorted ["notes.tsv"] ".tsv")))) :=
  ⟨⟨by decide, (triplet_discovery_errors_c6 ["sample.records.tsv"]).1 (by decide)⟩,
   ⟨by decide, (triplet_discovery_errors_c6 ["notes.tsv"]).2 (by decide)⟩⟩

/-- A file name is its stem followed by its suffix. -/
theorem pyStem_append_pySuffix (s : String) : pyStem s ++ pySuffix s = s := by
  apply String.ext
  rw [String.data_append]
  show s.data.take (s.data.length - (pySuffixL s.data).length) ++ pySuffixL s.data = s.data
  generalize s.data = cs
  unfold pySuffixL
  cases hidx : idxOfDot cs.reverse with
  | none => simp
  | some j =>
      simp only []
      by_cases hcond : 0 < cs.length - 1 - j ∧ cs.length - 1 - j < cs.length - 1
      · rw [if_pos hcond, List.length_drop]
        have heq : cs.length - (cs.length - (cs.length - 1 - j)) = cs.length - 1 - j := by
          omega
        rw [heq, List.take_append_drop]
      · rw [if_neg hcond]; simp

/-- C7: compression output naming.  For an RDF source whose extension is
`.nt` or `.nq`, the gzip output is `<name>.gz`, the brotli output
`<name>.br`, and the hdt output `<stem>.hdt`; concretely, `sample.nt`
with methods gzip, brotli, hdt yields exactly `sample.nt.gz`,
`sample.nt.br`, `sample.hdt`. -/
theorem compression_output_naming_c7 (name : String)
    (h : pySuffix name = ".nt" ∨ pySuffix name = ".nq") :
    outputNameFor (pyStem name) (rdfInputExt name) .gzip = name ++ ".gz" ∧
    outputNameFor (pyStem name) (rdfInputExt name) .brotli = name ++ ".br" ∧
    outputNameFor (pyStem name) (rdfInputExt name) .hdt = pyStem name ++ ".hdt" ∧
    ((run_compression_methods_for_rdf ⟨fun _ => 0, fun _ => 1, fun _ => some 5⟩ "sample.nt"
        "/out" [.gzip, .brotli, .hdt]).2.map (fun p => p.2.output_path))
      = ["/out/sample/sample.nt.gz", "/out/sample/sample.nt.br", "/out/sample/sample.hdt"]
    := by
  refine ⟨?_, ?_, rfl, by decide⟩ <;>
  · rcases h with h | h <;>
    · have he : rdfInputExt name = ⟨(pySuffix name).data.drop 1⟩ := by
        unfold rdfInputExt
        rw [h]
        decide
      rw [he]
      conv_rhs => rw [← pyStem_append_pySuffix name]
      rw [h]
      apply String.ext
      simp [String.data_append, outputNameFor]

/-- Witness for C7 at the concrete source name `sample.nt`. -/
theorem compression_output_naming_c7_witness :
    (pySuffix "sample.nt" = ".nt" ∨ pySuffix "sample.nt" = ".nq") ∧
    (outputNameFor (pyStem "sample.nt") (rdfInputExt "sample.nt") .gzip
        = "sample.nt" ++ ".gz" ∧
     outputNameFor (pyStem "sample.nt") (rdfInputExt "sample.nt") .brotli
        = "sample.nt" ++ ".br" ∧
     outputNameFor (pyStem "sample.nt") (rdfInputExt "sample.nt") .hdt
        = pyStem "sample.nt" ++ ".hdt" ∧
     ((run_compression_methods_for_rdf ⟨fun _ => 0, fun _ => 1, fun _ => some 5⟩ "sample.nt"
        "/out" [.gzip, .brotli, .hdt]).2.map (fun p => p.2.output_path))
      = ["/out/sample/sample.nt.gz", "/out/sample/sample.nt.br", "/out/sample/sample.hdt"]) :=
  ⟨by decide, compression_output_naming_c7 "sample.nt" (by decide)⟩

/-- Python `endswith` in terms of list structure. -/
theorem strEndsWith_iff (s t : String) :
    strEndsWith s t = true ↔ ∃ ds, s.data = ds ++ t.data := by
  unfold strEndsWith
  rw [beq_iff_eq]
  constructor
  · intro h
    refine ⟨s.data.take (s.data.length - t.data.length), ?_⟩
    conv_lhs => rw [← List.take_append_drop (s.data.length - t.data.length) s.data]
    rw [h]
  · rintro ⟨ds, hds⟩
    rw [hds, List.length_append, Nat.add_sub_cancel, List.drop_left]

/-- `idxOfDot` on a list whose head part is dot-free. -/
theorem idxOfDot_append (l t : List Char) (h : ∀ c ∈ l, ¬ c = '.') :
    idxOfDot (l ++ '.' :: t) = some l.length := by
  induction l with
  | nil => simp [idxOfDot]
  | cons c cs ih =>
      have hc : ¬ c = '.' := h c (by simp)
      simp only [List.cons_append, idxOfDot, hc, if_false]
      rw [show cs.append ('.' :: t) = cs ++ '.' :: t from rfl,
        ih (fun d hd => h d (by simp [hd]))]
      simp

/-- The pathlib suffix of a name decomposed as `ds ++ "." ++ es` with a
dot-free nonempty extension part: the dotted extension, or empty for a
bare dotfile. -/
theorem pySuffixL_append_dotted (ds es : List Char) (hne : es ≠ [])
    (hnd : ∀ c ∈ es, ¬ c = '.') :
    pySuffixL (ds ++ '.' :: es) = if ds = [] then [] else '.' :: es := by
  have hrev : (ds ++ '.' :: es).reverse = es.reverse ++ '.' :: ds.reverse := by simp
  unfold pySuffixL
  rw [hrev, idxOfDot_append _ _ (fun c hc => hnd c (by simpa using hc))]
  simp only [List.length_append, List.length_cons, List.length_reverse]
  have hlen : ds.length + (es.length + 1) - 1 - es.length = ds.length := by omega
  rw [hlen]
  by_cases hds : ds = []
  · subst hds
    rw [if_neg (by simp), if_pos rfl]
  · have h1 : 0 < ds.length := List.length_pos.mpr hds
    have h2 : 0 < es.length := List.length_pos.mpr hne
    rw [if_pos ⟨h1, by omega⟩, if_neg hds, List.drop_left]

/-- `pySuffix s` equals a single dotted extension exactly when `s` ends
with it and is not the bare dotfile. -/
theorem pySuffix_dotted_iff (s : String) (es : List Char) (hne : es ≠ [])
    (hnd : ∀ c ∈ es, ¬ c = '.') :
    pySuffix s = ⟨'.' :: es⟩ ↔ (strEndsWith s ⟨'.' :: es⟩ = true ∧ s ≠ ⟨'.' :: es⟩) := by
  constructor
  · intro h
    have hdata : pySuffixL s.data = '.' :: es := congrArg String.data h
    constructor
    · rw [strEndsWith_iff]
      refine ⟨(pyStem s).data, ?_⟩
      conv_lhs => rw [← pyStem_append_pySuffix s]
      rw [String.data_append]
      unfold pySuffix
      rw [hdata]
    · intro hc
      have : s.data = [] ++ '.' :: es := by rw [hc]; rfl
      rw [this, pySuffixL_append_dotted [] es hne hnd, if_pos rfl] at hdata
      cases hdata
  · rintro ⟨hends, hneq⟩
    obtain ⟨ds, hds⟩ := (strEndsWith_iff _ _).mp hends
    have hds_ne : ds ≠ [] := by
      intro hc
      subst hc
      exact hneq (String.ext (by simpa using hds))
    unfold pySuffix
    rw [hds, pySuffixL_append_dotted ds es hne hnd, if_neg hds_ne]

/-- Ending in `.nq.gz` or `.nt.gz` is a strict way of ending in `.gz`. -/
theorem ends_double_imp_gz (name : String) (u : String)
    (hu : u = ".nq.gz" ∨ u = ".nt.gz") (h : strEndsWith name u = true) :
    strEndsWith name ".gz" = true ∧ name ≠ ".gz" := by
  obtain ⟨ds, hds⟩ := (strEndsWith_iff _ _).mp h
  constructor
  · rw [strEndsWith_iff]
    rcases hu with rfl | rfl
    · exact ⟨ds ++ ['.', 'n', 'q'], by rw [hds]; simp⟩
    · exact ⟨ds ++ ['.', 'n', 't'], by rw [hds]; simp⟩
  · intro hc
    subst hc
    have hlen := congrArg List.length hds
    rcases hu with rfl | rfl <;> simp at hlen

/-- Ending in `.nq.br` or `.nt.br` is a strict way of ending in `.br`. -/
theorem ends_double_imp_br (name : String) (u : String)
    (hu : u = ".nq.br" ∨ u = ".nt.br") (h : strEndsWith name u = true) :
    strEndsWith name ".br" = true ∧ name ≠ ".br" := by
  obtain ⟨ds, hds⟩ := (strEndsWith_iff _ _).mp h
  constructor
  · rw [strEndsWith_iff]
    rcases hu with rfl | rfl
    · exact ⟨ds ++ ['.', 'n', 'q'], by rw [hds]; simp⟩
    · exact ⟨ds ++ ['.', 'n', 't'], by rw [hds]; simp⟩
  · intro hc
    subst hc
    have hlen := congrArg List.length hds
    rcases hu with rfl | rfl <;> simp at hlen

/-- The gzip branch condition of `detect_compressed_format`, rephrased
through plain `endswith`. -/
theorem gzipAccept_iff (name : String) :
    (strEndsWith name ".nq.gz" || strEndsWith name ".nt.gz"
      || decide (pySuffix name = ".gz")) = true
      ↔ (strEndsWith name ".gz" = true ∧ name ≠ ".gz") := by
  simp only [Bool.or_eq_true, decide_eq_true_eq]
  constructor
  · rintro ((h | h) | h)
    · exact ends_double_imp_gz name _ (Or.inl rfl) h
    · exact ends_double_imp_gz name _ (Or.inr rfl) h
    · exact (pySuffix_dotted_iff name ['g', 'z'] (by simp) (by decide)).mp h
  · intro h
    exact Or.inr ((pySuffix_dotted_iff name ['g', 'z'] (by simp) (by decide)).mpr h)

/-- The brotli branch condition of `detect_compressed_format`. -/
theorem brotliAccept_iff (name : String) :
    (strEndsWith name ".nq.br" || strEndsWith name ".nt.br"
      || decide (pySuffix name = ".br")) = true
      ↔ (strEndsWith name ".br" = true ∧ name ≠ ".br") := by
  simp only [Bool.or_eq_true, decide_eq_true_eq]
  constructor
  · rintro ((h | h) | h)
    · exact ends_double_imp_br name _ (Or.inl rfl) h
    · exact ends_double_imp_br name _ (Or.inr rfl) h
    · exact (pySuffix_dotted_iff name ['b', 'r'] (by simp) (by decide)).mp h
  · intro h
    exact Or.inr ((pySuffix_dotted_iff name ['b', 'r'] (by simp) (by decide)).mpr h)

/-- The hdt branch condition of `detect_compressed_format`. -/
theorem hdtAccept_iff (name : String) :
    pySuffix name = ".hdt" ↔ (strEndsWith name ".hdt" = true ∧ name ≠ ".hdt") :=
  pySuffix_dotted_iff name ['h', 'd', 't'] (by simp) (by decide)

/-- `detect_compressed_format` raises exactly when the name, through the
pathlib suffix rules, matches none of the three formats. -/
theorem detect_error_iff (name : String) :
    detect_compressed_format name = .error () ↔
      ¬ (strEndsWith name ".gz" = true ∧ name ≠ ".gz") ∧
      ¬ (strEndsWith name ".br" = true ∧ name ≠ ".br") ∧
      ¬ (strEndsWith name ".hdt" = true ∧ name ≠ ".hdt") := by
  unfold detect_compressed_format
  by_cases h1 : (strEndsWith name ".nq.gz" || strEndsWith name ".nt.gz"
      || decide (pySuffix name = ".gz")) = true
  · rw [if_pos h1]
    exact iff_of_false (by simp) (by simp [(gzipAccept_iff name).mp h1])
  · rw [if_neg h1]
    by_cases h2 : (strEndsWith name ".nq.br" || strEndsWith name ".nt.br"
        || decide (pySuffix name = ".br")) = true
    · rw [if_pos h2]
      exact iff_of_false (by simp) (by simp [(brotliAccept_iff name).mp h2])
    · rw [if_neg h2]
      by_cases h3 : pySuffix name = ".hdt"
      · rw [if_pos h3]
        exact iff_of_false (by simp) (by simp [(hdtAccept_iff name).mp h3])
      · rw [if_neg h3]
        refine iff_of_true rfl ⟨?_, ?_, ?_⟩
        · exact fun hc => h1 ((gzipAccept_iff name).mpr hc)
        · exact fun hc => h2 ((brotliAccept_iff name).mpr hc)
        · exact fun hc => h3 ((hdtAccept_iff name).mpr hc)

/-- C8 counterexample: the dotfile name `.gz` ends with `.gz`, yet
`detect_compressed_format` raises the unrecognized-extension error
(its pathlib suffix is empty), so the claimed characterization
"raises iff the name ends with none of .gz/.br/.hdt" is false. -/
theorem decompress_naming_c8_counterexample :
    strEndsWith ".gz" ".gz" = true ∧ detect_compressed_format ".gz" = .error () := by
  decide

/-- C8 (amended): `detect_compressed_format` raises iff the name ends
with none of `.gz`/`.br`/`.hdt` or is exactly the bare dotfile `.gz`,
`.br` or `.hdt`; the default decompression target strips only the final
`.gz`/`.br` for the four double-suffix endings and is `<stem>.nt` for
every other recognized input (including every `.hdt`); and a
decompress-mode detection failure is mapped to validation exit code 2
during the pure validation stage of `main`, before any external command
runs. -/
theorem decompress_naming_c8 :
    (∀ name : String, detect_compressed_format name = .error () ↔
      ¬ (strEndsWith name ".gz" = true ∧ name ≠ ".gz") ∧
      ¬ (strEndsWith name ".br" = true ∧ name ≠ ".br") ∧
      ¬ (strEndsWith name ".hdt" = true ∧ name ≠ ".hdt")) ∧
    (∀ name, strEndsWith name ".nq.gz" = true →
      default_decompressed_name name "gzip" = strDropRight name 3) ∧
    (∀ name, strEndsWith name ".nt.gz" = true →
      default_decompressed_name name "gzip" = strDropRight name 3) ∧
    (∀ name, strEndsWith name ".nq.br" = true →
      default_decompressed_name name "brotli" = strDropRight name 3) ∧
    (∀ name, strEndsWith name ".nt.br" = true →
      default_decompressed_name name "brotli" = strDropRight name 3) ∧
    (∀ name, strEndsWith name ".nq.gz" = false → strEndsWith name ".nt.gz" = false →
      default_decompressed_name name "gzip" = pyStem name ++ ".nt") ∧
    (∀ name, strEndsWith name ".nq.br" = false → strEndsWith name ".nt.br" = false →
      default_decompressed_name name "brotli" = pyStem name ++ ".nt") ∧
    (∀ name, default_decompressed_name name "hdt" = pyStem name ++ ".nt") ∧
    (∀ (env : FsEnv) (cp : String) (dArg : Option String) (od : String),
      detect_compressed_format (baseName cp) = .error () →
      mainDecompressValidate env (some cp) dArg od = .error 2) ∧
    default_decompressed_name "sample.nq.gz" "gzip" = "sample.nq" ∧
    default_decompressed_name "sample.hdt" "hdt" = "sample.nt" := by
  refine ⟨detect_error_iff, ?_, ?_, ?_, ?_, ?_, ?_, ?_, ?_, by decide, by decide⟩
  · intro name h
    simp [default_decompressed_name, h]
  · intro name h
    simp [default_decompressed_name, h]
  · intro name h
    simp [default_decompressed_name, h]
  · intro name h
    simp [default_decompressed_name, h]
  · intro name h1 h2
    simp [default_decompressed_name, h1, h2]
  · intro name h1 h2
    simp [default_decompressed_name, h1, h2]
  · intro name
    simp [default_decompressed_name]
  · intro env cp dArg od hdet
    by_cases hex : (env.pathExists cp && env.isFile cp) = true
    · simp only [mainDecompressValidate, hex, not_true_eq_false, Bool.false_eq_true,
        if_false, hdet]
    · simp only [mainDecompressValidate]
      rw [if_pos (by simp [hex])]

/-- Witness for C8: the theorem applied at `sample.nq.gz` and at a
failing validation for the unrecognized `data.xz`. -/
theorem decompress_naming_c8_witness :
    strEndsWith "sample.nq.gz" ".nq.gz" = true ∧
    default_decompressed_name "sample.nq.gz" "gzip" = strDropRight "sample.nq.gz" 3 ∧
    detect_compressed_format (baseName "/in/data.xz") = .error () ∧
    mainDecompressValidate ⟨fun _ => true, fun _ => true, fun _ => false, fun _ => []⟩
      (some "/in/data.xz") none "/out" = .error 2 :=
  ⟨by decide, decompress_naming_c8.2.1 "sample.nq.gz" (by decide), by decide,
   decompress_naming_c8.2.2.2.2.2.2.2.2.1 ⟨fun _ => true, fun _ => true, fun _ => false,
     fun _ => []⟩ "/in/data.xz" none "/out" (by decide)⟩

/-- `uniqLoop` only consults the membership of the seen set. -/
theorem uniqLoop_congr (l : List String) : ∀ s₁ s₂ : List String,
    (∀ x, x ∈ s₁ ↔ x ∈ s₂) → uniqLoop s₁ l = uniqLoop s₂ l := by
  induction l with
  | nil => intros; rfl
  | cons x xs ih =>
      intro s₁ s₂ hs
      simp only [uniqLoop]
      by_cases hx : x ∈ s₁
      · rw [if_pos hx, if_pos ((hs x).mp hx)]
        exact ih _ _ hs
      · rw [if_neg hx, if_neg (fun hc => hx ((hs x).mpr hc))]
        rw [ih (x :: s₁) (x :: s₂) (fun y => by simp [hs y])]

/-- A successful `parseLoop` run extends the accumulator with the
first-occurrence deduplication of the non-empty stripped tokens. -/
theorem parseLoop_ok_eq (ts : List String) : ∀ acc l, parseLoop acc ts = .ok l →
    l = acc ++ uniqLoop acc ((ts.map pyStrip).filter (fun x => x ≠ "")) := by
  induction ts with
  | nil =>
      intro acc l h
      obtain rfl : acc = l := by cases h; rfl
      simp [uniqLoop]
  | cons t ts ih =>
      intro acc l h
      simp only [parseLoop] at h
      by_cases h0 : pyStrip t = ""
      · rw [if_pos h0] at h
        simpa [List.filter_cons, h0] using ih acc l h
      · rw [if_neg h0] at h
        by_cases hval : pyStrip t ≠ "gzip" ∧ pyStrip t ≠ "brotli" ∧ pyStrip t ≠ "hdt"
        · rw [if_pos hval] at h; cases h
        · rw [if_neg hval] at h
          by_cases hmem : pyStrip t ∈ acc
          · rw [if_pos hmem] at h
            simpa [List.filter_cons, h0, uniqLoop, hmem] using ih acc l h
          · rw [if_neg hmem] at h
            have heq := ih (acc ++ [pyStrip t]) l h
            rw [heq, List.append_assoc, List.singleton_append]
            rw [List.map_cons, List.filter_cons, if_pos (by simp [h0])]
            simp only [uniqLoop]
            rw [if_neg hmem]
            rw [uniqLoop_congr _ (acc ++ [pyStrip t]) (pyStrip t :: acc)
              (fun y => by simp [or_comm])]

/-- Every element a successful `parseLoop` run returns is a supported
method name (given the accumulator already is). -/
theorem parseLoop_ok_valid (ts : List String) : ∀ acc l,
    (∀ x ∈ acc, x = "gzip" ∨ x = "brotli" ∨ x = "hdt") →
    parseLoop acc ts = .ok l → ∀ x ∈ l, x = "gzip" ∨ x = "brotli" ∨ x = "hdt" := by
  induction ts with
  | nil =>
      intro acc l hacc h
      obtain rfl : acc = l := by cases h; rfl
      exact hacc
  | cons t ts ih =>
      intro acc l hacc h
      simp only [parseLoop] at h
      by_cases h0 : pyStrip t = ""
      · rw [if_pos h0] at h
        exact ih acc l hacc h
      · rw [if_neg h0] at h
        by_cases hval : pyStrip t ≠ "gzip" ∧ pyStrip t ≠ "brotli" ∧ pyStrip t ≠ "hdt"
        · rw [if_pos hval] at h; cases h
        · rw [if_neg hval] at h
          push_neg at hval
          by_cases hmem : pyStrip t ∈ acc
          · rw [if_pos hmem] at h
            exact ih acc l hacc h
          · rw [if_neg hmem] at h
            refine ih (acc ++ [pyStrip t]) l ?_ h
            intro x hx
            rcases List.mem_append.mp hx with hx | hx
            · exact hacc x hx
            · have hx2 : x = pyStrip t := by simpa using hx
              rw [hx2]
              by_cases hg : pyStrip t = "gzip"
              · exact Or.inl hg
              · by_cases hb : pyStrip t = "brotli"
                · exact Or.inr (Or.inl hb)
                · exact Or.inr (Or.inr (hval hg hb))

/-- A stripped token that is neither empty nor a supported method makes
`parseLoop` fail. -/
theorem parseLoop_error_of_bad (ts : List String) : ∀ acc,
    (∃ t ∈ ts, pyStrip t ≠ "" ∧ pyStrip t ≠ "gzip" ∧ pyStrip t ≠ "brotli" ∧
      pyStrip t ≠ "hdt") →
    ∃ e, parseLoop acc ts = .error e := by
  induction ts with
  | nil => rintro acc ⟨t, ht, _⟩; simp at ht
  | cons t₀ ts ih =>
      rintro acc ⟨t, ht, hbad⟩
      rcases List.mem_cons.mp ht with rfl | htl
      · refine ⟨.unsupported (pyStrip t), ?_⟩
        simp only [parseLoop]
        rw [if_neg hbad.1, if_pos ⟨hbad.2.1, hbad.2.2.1, hbad.2.2.2⟩]
      · simp only [parseLoop]
        by_cases h0 : pyStrip t₀ = ""
        · rw [if_pos h0]
          exact ih acc ⟨t, htl, hbad⟩
        · rw [if_neg h0]
          by_cases hval : pyStrip t₀ ≠ "gzip" ∧ pyStrip t₀ ≠ "brotli" ∧ pyStrip t₀ ≠ "hdt"
          · rw [if_pos hval]
            exact ⟨.unsupported (pyStrip t₀), rfl⟩
          · rw [if_neg hval]
            by_cases hmem : pyStrip t₀ ∈ acc
            · rw [if_pos hmem]
              exact ih acc ⟨t, htl, hbad⟩
            · rw [if_neg hmem]
              exact ih (acc ++ [pyStrip t₀]) ⟨t, htl, hbad⟩

/-- Tokens that all strip to empty leave the accumulator untouched. -/
theorem parseLoop_all_empty (ts : List String) : ∀ acc,
    (∀ t ∈ ts, pyStrip t = "") → parseLoop acc ts = .ok acc := by
  induction ts with
  | nil => intro acc _; rfl
  | cons t ts ih =>
      intro acc h
      simp only [parseLoop]
      rw [if_pos (h t (by simp))]
      exact ih acc (fun u hu => h u (by simp [hu]))

/-- C10 counterexample: `","` strips to neither `""` nor `"none"`, yet
`parse_compression_methods` returns the empty list (all tokens are
empty), so "empty result iff stripped input is empty or none" is false. -/
theorem parse_methods_c10_counterexample :
    parse_compression_methods "," = .ok [] ∧ pyStrip "," ≠ "" ∧ pyStrip "," ≠ "none" := by
  decide

/-- C10 (amended): `parse_compression_methods` returns `[]` iff the
stripped input is `""`, `"none"`, or has only whitespace tokens; a
`"none"` token inside a longer list is an unsupported-method error;
a successful parse is the first-occurrence deduplication
(`unique_in_order`) of the non-empty stripped tokens, and every element
is gzip, brotli or hdt. -/
theorem parse_methods_c10 :
    (∀ s, parse_compression_methods s = .ok [] ↔
      (pyStrip s = "" ∨ pyStrip s = "none" ∨
        ((pySplit ',' (pyStrip s)).map pyStrip).filter (fun x => x ≠ "") = [])) ∧
    (∀ s, pyStrip s ≠ "none" →
      "none" ∈ (pySplit ',' (pyStrip s)).map pyStrip →
      ∃ e, parse_compression_methods s = .error e) ∧
    (∀ s l, parse_compression_methods s = .ok l →
      (pyStrip s ≠ "none" → l = unique_in_order
        (((pySplit ',' (pyStrip s)).map pyStrip).filter (fun x => x ≠ ""))) ∧
      ∀ x ∈ l, x = "gzip" ∨ x = "brotli" ∨ x = "hdt") := by
  refine ⟨?_, ?_, ?_⟩
  · intro s
    unfold parse_compression_methods
    by_cases hv : pyStrip s = "" ∨ pyStrip s = "none"
    · rw [if_pos hv]
      exact iff_of_true rfl (by tauto)
    · rw [if_neg hv]
      constructor
      · intro h
        refine Or.inr (Or.inr ?_)
        have := parseLoop_ok_eq _ _ _ h
        simp only [List.nil_append] at this
        cases hf : ((pySplit ',' (pyStrip s)).map pyStrip).filter (fun x => x ≠ "") with
        | nil => rfl
        | cons a tl =>
            rw [hf] at this
            simp only [uniqLoop, List.not_mem_nil, if_neg (fun hc : a ∈ ([] : List String)
              => by cases hc)] at this
            cases this
      · rintro (h | h | h)
        · exact absurd (Or.inl h) hv
        · exact absurd (Or.inr h) hv
        · refine parseLoop_all_empty _ _ ?_
          intro t ht
          by_contra hne
          have : pyStrip t ∈ ((pySplit ',' (pyStrip s)).map pyStrip).filter
              (fun x => x ≠ "") := by
            rw [List.mem_filter]
            exact ⟨List.mem_map_of_mem _ ht, by simpa using hne⟩
          rw [h] at this
          cases this
  · intro s hnone hmem
    unfold parse_compression_methods
    by_cases hv : pyStrip s = "" ∨ pyStrip s = "none"
    · rcases hv with hv | hv
      · exfalso
        rw [hv] at hmem
        have he : (pySplit ',' "").map pyStrip = [""] := by decide
        rw [he] at hmem
        simp at hmem
      · exact absurd hv hnone
    · rw [if_neg hv]
      obtain ⟨t, ht, hts⟩ := List.mem_map.mp hmem
      refine parseLoop_error_of_bad _ [] ⟨t, ht, ?_, ?_, ?_, ?_⟩ <;> rw [hts] <;> decide
  · intro s l h
    unfold parse_compression_methods at h
    by_cases hv : pyStrip s = "" ∨ pyStrip s = "none"
    · rw [if_pos hv] at h
      obtain rfl : ([] : List String) = l := by cases h; rfl
      refine ⟨?_, by simp⟩
      intro hnone
      rcases hv with hv | hv
      · simp [unique_in_order, uniqLoop, hv, pySplit, splitCharAux]
      · exact absurd hv hnone
    · rw [if_neg hv] at h
      constructor
      · intro _
        simpa [unique_in_order] using parseLoop_ok_eq _ _ _ h
      · exact parseLoop_ok_valid _ _ _ (by simp) h

/-- Witness for C10: the empty-token input `" , "`, the mixed input
`"gzip,none"`, and the duplicated input `"gzip,hdt,,gzip"`. -/
theorem parse_methods_c10_witness :
    (parse_compression_methods " , " = .ok [] ↔
      (pyStrip " , " = "" ∨ pyStrip " , " = "none" ∨
        ((pySplit ',' (pyStrip " , ")).map pyStrip).filter (fun x => x ≠ "") = [])) ∧
    (∃ e, parse_compression_methods "gzip,none" = .error e) ∧
    ((pyStrip "gzip,hdt,,gzip" ≠ "none" → ["gzip", "hdt"] = unique_in_order
        (((pySplit ',' (pyStrip "gzip,hdt,,gzip")).map pyStrip).filter (fun x => x ≠ ""))) ∧
      ∀ x ∈ ["gzip", "hdt"], x = "gzip" ∨ x = "brotli" ∨ x = "hdt") :=
  ⟨parse_methods_c10.1 " , ",
   parse_methods_c10.2.1 "gzip,none" (by decide) (by decide),
   parse_methods_c10.2.2 "gzip,hdt,,gzip" ["gzip", "hdt"] (by decide)⟩

/-- The error events of a full-mode trace. -/
def isErrorEvent : Event → Bool
  | .errorTsv _ => true
  | .errorDiscover _ _ => true
  | .errorMissingTriplet _ _ => true
  | .errorRdf _ _ => true
  | .errorCompression _ => true
  | .errorMetricsPermission _ => true
  | .errorRemoveFile _ _ => true
  | _ => false

/-- The container input of a TSV-stage event. -/
def evTsvInput : Event → Option String
  | .tsvStep _ cin _ => some cin
  | _ => none

/-- Every event a removal loop produces is a success event or a failure
event for one of its paths. -/
theorem removeExistingFiles_events (pe ro : String → Bool) (okEv errEv : String → Event)
    (ps : List String) :
    ∀ e ∈ (removeExistingFiles pe ro okEv errEv ps).1,
      (∃ p, e = okEv p) ∨ (∃ p, e = errEv p) := by
  induction ps with
  | nil => simp [removeExistingFiles]
  | cons p ps ih =>
      intro e he
      simp only [removeExistingFiles] at he
      by_cases h1 : pe p = true
      · rw [if_pos h1] at he
        by_cases h2 : ro p = true
        · rw [if_pos h2] at he
          rcases List.mem_cons.mp he with rfl | he'
          · exact Or.inl ⟨p, rfl⟩
          · exact ih e he'
        · rw [if_neg h2] at he
          obtain rfl : e = errEv p := by simpa using he
          exact Or.inr ⟨p, rfl⟩
      · rw [if_neg h1] at he
        exact ih e he

/-- Events of the raw-RDF cleanup stage. -/
theorem rdfCleanupOf_events (env : FullEnv) (args : FullArgs) (sel : List CompMethod)
    (idx : Nat) (n : String) :
    ∀ e ∈ (rdfCleanupOf env args sel idx n).1,
      (∃ p, e = .removedRdfFile idx p) ∨ (∃ p, e = .errorRemoveFile idx p) := by
  unfold rdfCleanupOf
  split
  · exact removeExistingFiles_events _ _ _ _ _
  · simp

/-- Events of the per-triplet TSV cleanup stage. -/
theorem tsvCleanupOf_events (env : FullEnv) (args : FullArgs) (idx : Nat) (t : Triplet) :
    ∀ e ∈ (tsvCleanupOf env args idx t).1,
      (∃ p, e = .removedTsvFile idx p) ∨ (∃ p, e = .errorRemoveFile idx p) := by
  unfold tsvCleanupOf
  split
  · exact removeExistingFiles_events _ _ _ _ _
  · simp

/-- An event is scoped to iteration `idx` with expected name `pfx0`:
every templated prefix is the expected one, and the end-of-run cleanup
events never occur inside an iteration. -/
def stepEvtOk (idx : Nat) (pfx0 : String) : Event → Bool
  | .tsvStep i _ _ => i == idx
  | .renderRules i p _ _ _ => i == idx && p == pfx0
  | .rdfStep i _ _ => i == idx
  | .wroteArtifacts i _ _ => i == idx
  | .wroteLedger i _ => i == idx
  | .removedRdfFile i _ => i == idx
  | .removedTsvFile i _ => i == idx
  | .removedTsvDir => false
  | .notedTsvDirKept => false
  | .errorTsv i => i == idx
  | .errorDiscover i _ => i == idx
  | .errorMissingTriplet i p => i == idx && p == pfx0
  | .errorRdf i _ => i == idx
  | .errorCompression i => i == idx
  | .errorMetricsPermission i => i == idx
  | .errorRemoveFile i _ => i == idx

/-- The TSV-input projection is empty on cleanup events. -/
theorem rdfCleanupOf_filterMap (env : FullEnv) (args : FullArgs) (sel : List CompMethod)
    (idx : Nat) (n : String) :
    (rdfCleanupOf env args sel idx n).1.filterMap evTsvInput = [] := by
  rw [List.filterMap_eq_nil_iff]
  intro e he
  rcases rdfCleanupOf_events env args sel idx n e he with ⟨p, rfl⟩ | ⟨p, rfl⟩ <;> rfl

/-- The TSV-input projection is empty on TSV cleanup events. -/
theorem tsvCleanupOf_filterMap (env : FullEnv) (args : FullArgs) (idx : Nat) (t : Triplet) :
    (tsvCleanupOf env args idx t).1.filterMap evTsvInput = [] := by
  rw [List.filterMap_eq_nil_iff]
  intro e he
  rcases tsvCleanupOf_events env args idx t e he with ⟨p, rfl⟩ | ⟨p, rfl⟩ <;> rfl


/-- Master characterization of one full-mode iteration: every emitted
event is scoped to this iteration and expected name, exactly one TSV
stage runs (for this container input), the iteration either continues or
early-returns code 1, and a continuing iteration templated the expected
triplet. -/
theorem fullStep_master (env : FullEnv) (args : FullArgs) (sel : List CompMethod)
    (ledger : Option CsvFile) (idx : Nat) (cin pfx0 : String) :
    (∀ e ∈ (fullStep env args sel ledger idx cin pfx0).2.1, stepEvtOk idx pfx0 e = true) ∧
    ((fullStep env args sel ledger idx cin pfx0).2.1.filterMap evTsvInput = [cin]) ∧
    ((fullStep env args sel ledger idx cin pfx0).2.2 = none ∨
      (fullStep env args sel ledger idx cin pfx0).2.2 = some 1) ∧
    ((fullStep env args sel ledger idx cin pfx0).2.2 = none →
      ∃ r h m, Event.renderRules idx pfx0 r h m ∈
        (fullStep env args sel ledger idx cin pfx0).2.1) := by
  by_cases h1 : env.tsvExit idx ≠ 0
  · have he : fullStep env args sel ledger idx cin pfx0
        = (ledger, [.tsvStep idx cin (env.tsvExit idx), .errorTsv idx], some 1) := by
      unfold fullStep
      simp only [if_pos h1]
      rfl
    rw [he]
    refine ⟨?_, rfl, Or.inr rfl, by simp⟩
    intro e he'
    rcases (by simpa using he' : e = Event.tsvStep idx cin (env.tsvExit idx)
        ∨ e = Event.errorTsv idx) with rfl | rfl <;> simp [stepEvtOk]
  · cases hdisc : discover_tsv_triplets (env.tsvDirAfter idx) with
    | error te =>
        have he : fullStep env args sel ledger idx cin pfx0
            = (ledger, [.tsvStep idx cin (env.tsvExit idx), .errorDiscover idx te],
               some 1) := by
          unfold fullStep
          simp only [if_neg h1, hdisc]
          rfl
        rw [he]
        refine ⟨?_, rfl, Or.inr rfl, by simp⟩
        intro e he'
        rcases (by simpa using he' : e = Event.tsvStep idx cin (env.tsvExit idx)
            ∨ e = Event.errorDiscover idx te) with rfl | rfl <;> simp [stepEvtOk]
    | ok ts =>
        cases hfind : ts.reverse.find? (fun t => t.pfx == pfx0) with
        | none =>
            have he : fullStep env args sel ledger idx cin pfx0
                = (ledger, [.tsvStep idx cin (env.tsvExit idx),
                    .errorMissingTriplet idx pfx0], some 1) := by
              unfold fullStep
              simp only [if_neg h1, hdisc, hfind]
              rfl
            rw [he]
            refine ⟨?_, rfl, Or.inr rfl, by simp⟩
            intro e he'
            rcases (by simpa using he' : e = Event.tsvStep idx cin (env.tsvExit idx)
                ∨ e = Event.errorMissingTriplet idx pfx0) with rfl | rfl <;> simp [stepEvtOk]
        | some t =>
            have hpfx : t.pfx = pfx0 := by simpa using List.find?_some hfind
            by_cases h4 : env.rdfExit idx ≠ 0
            · have he : fullStep env args sel ledger idx cin pfx0
                  = (ledger, [.tsvStep idx cin (env.tsvExit idx),
                      .renderRules idx t.pfx t.records t.headers t.metadata,
                      .rdfStep idx (outputNameOf args t) (env.rdfExit idx),
                      .errorRdf idx t.pfx], some 1) := by
                unfold fullStep
                simp only [if_neg h1, hdisc, hfind, if_pos h4]
                rfl
              rw [he]
              refine ⟨?_, rfl, Or.inr rfl, by simp⟩
              intro e he'
              rcases (by simpa using he' : e = Event.tsvStep idx cin (env.tsvExit idx)
                  ∨ e = Event.renderRules idx t.pfx t.records t.headers t.metadata
                  ∨ e = Event.rdfStep idx (outputNameOf args t) (env.rdfExit idx)
                  ∨ e = Event.errorRdf idx t.pfx) with rfl | rfl | rfl | rfl <;>
                simp [stepEvtOk, hpfx]
            · cases hcomp : (compRunOf env args sel idx (outputNameOf args t)).1 with
              | false =>
                  have he : fullStep env args sel ledger idx cin pfx0
                      = (ledger, [.tsvStep idx cin (env.tsvExit idx),
                          .renderRules idx t.pfx t.records t.headers t.metadata,
                          .rdfStep idx (outputNameOf args t) (env.rdfExit idx),
                          .errorCompression idx], some 1) := by
                    unfold fullStep
                    simp only [if_neg h1, hdisc, hfind, if_neg h4, hcomp,
                      Bool.false_eq_true, not_false_eq_true, if_true]
                    rfl
                  rw [he]
                  refine ⟨?_, rfl, Or.inr rfl, by simp⟩
                  intro e he'
                  rcases (by simpa using he' : e = Event.tsvStep idx cin (env.tsvExit idx)
                      ∨ e = Event.renderRules idx t.pfx t.records t.headers t.metadata
                      ∨ e = Event.rdfStep idx (outputNameOf args t) (env.rdfExit idx)
                      ∨ e = Event.errorCompression idx) with rfl | rfl | rfl | rfl <;>
                    simp [stepEvtOk, hpfx]
              | true =>
                  cases h5 : env.metricsWriteOk idx with
                  | false =>
                      have he : fullStep env args sel ledger idx cin pfx0
                          = (ledger, [.tsvStep idx cin (env.tsvExit idx),
                              .renderRules idx t.pfx t.records t.headers t.metadata,
                              .rdfStep idx (outputNameOf args t) (env.rdfExit idx),
                              .errorMetricsPermission idx], some 1) := by
                        unfold fullStep
                        simp only [if_neg h1, hdisc, hfind, if_neg h4, hcomp, h5,
                          Bool.false_eq_true, eq_self_iff_true, not_true_eq_false,
                          not_false_eq_true, if_true, if_false]
                        rfl
                      rw [he]
                      refine ⟨?_, rfl, Or.inr rfl, by simp⟩
                      intro e he'
                      rcases (by simpa using he' :
                          e = Event.tsvStep idx cin (env.tsvExit idx)
                          ∨ e = Event.renderRules idx t.pfx t.records t.headers t.metadata
                          ∨ e = Event.rdfStep idx (outputNameOf args t) (env.rdfExit idx)
                          ∨ e = Event.errorMetricsPermission idx) with rfl | rfl | rfl | rfl <;>
                        simp [stepEvtOk, hpfx]
                  | true =>
                      cases hrc : (rdfCleanupOf env args sel idx (outputNameOf args t)).2 with
                      | false =>
                          have he : fullStep env args sel ledger idx cin pfx0
                              = (some (update_metrics_csv_with_compression "metrics.csv"
                                    ledger args.runId args.timestamp (outputNameOf args t)
                                    (args.outDirPath ++ "/" ++ outputNameOf args t)
                                    ((env.sizeOf idx (args.outDirPath ++ "/"
                                      ++ outputNameOf args t ++ "/"
                                      ++ srcNameOf env args idx (outputNameOf args t))).getD 0)
                                    sel (compRunOf env args sel idx
                                      (outputNameOf args t)).2).written,
                                 [.tsvStep idx cin (env.tsvExit idx),
                                  .renderRules idx t.pfx t.records t.headers t.metadata,
                                  .rdfStep idx (outputNameOf args t) (env.rdfExit idx),
                                  .wroteArtifacts idx (outputNameOf args t)
                                    (compRunOf env args sel idx (outputNameOf args t)).2,
                                  .wroteLedger idx (outputNameOf args t)] ++
                                  (rdfCleanupOf env args sel idx (outputNameOf args t)).1,
                                 some 1) := by
                            unfold fullStep
                            simp only [if_neg h1, hdisc, hfind, if_neg h4, hcomp, h5, hrc,
                              Bool.false_eq_true, eq_self_iff_true, not_true_eq_false,
                              not_false_eq_true, if_true, if_false]
                            rfl
                          rw [he]
                          refine ⟨?_, ?_, Or.inr rfl, by simp⟩
                          · intro e he'
                            rcases List.mem_append.mp he' with hm | hm
                            · rcases (by simpa using hm :
                                  e = Event.tsvStep idx cin (env.tsvExit idx)
                                  ∨ e = Event.renderRules idx t.pfx t.records t.headers
                                      t.metadata
                                  ∨ e = Event.rdfStep idx (outputNameOf args t)
                                      (env.rdfExit idx)
                                  ∨ e = Event.wroteArtifacts idx (outputNameOf args t)
                                      (compRunOf env args sel idx (outputNameOf args t)).2
                                  ∨ e = Event.wroteLedger idx (outputNameOf args t)) with
                                rfl | rfl | rfl | rfl | rfl <;> simp [stepEvtOk, hpfx]
                            · rcases rdfCleanupOf_events env args sel idx
                                  (outputNameOf args t) e hm with ⟨p, rfl⟩ | ⟨p, rfl⟩ <;>
                                simp [stepEvtOk]
                          · rw [List.filterMap_append, rdfCleanupOf_filterMap]
                            rfl
                      | true =>
                          cases htc : (tsvCleanupOf env args idx t).2 with
                          | false =>
                              have he : fullStep env args sel ledger idx cin pfx0
                                  = (some (update_metrics_csv_with_compression "metrics.csv"
                                        ledger args.runId args.timestamp
                                        (outputNameOf args t)
                                        (args.outDirPath ++ "/" ++ outputNameOf args t)
                                        ((env.sizeOf idx (args.outDirPath ++ "/"
                                          ++ outputNameOf args t ++ "/"
                                          ++ srcNameOf env args idx
                                            (outputNameOf args t))).getD 0)
                                        sel (compRunOf env args sel idx
                                          (outputNameOf args t)).2).written,
                                     ([.tsvStep idx cin (env.tsvExit idx),
                                       .renderRules idx t.pfx t.records t.headers t.metadata,
                                       .rdfStep idx (outputNameOf args t) (env.rdfExit idx),
                                       .wroteArtifacts idx (outputNameOf args t)
                                         (compRunOf env args sel idx (outputNameOf args t)).2,
                                       .wroteLedger idx (outputNameOf args t)] ++
                                       (rdfCleanupOf env args sel idx
                                         (outputNameOf args t)).1) ++
                                       (tsvCleanupOf env args idx t).1,
                                     some 1) := by
                                unfold fullStep
                                simp only [if_neg h1, hdisc, hfind, if_neg h4, hcomp, h5,
                                  hrc, htc, Bool.false_eq_true, eq_self_iff_true,
                                  not_true_eq_false, not_false_eq_true, if_true, if_false]
                                rfl
                              rw [he]
                              refine ⟨?_, ?_, Or.inr rfl, by simp⟩
                              · intro e he'
                                rcases List.mem_append.mp he' with hm | hm
                                · rcases List.mem_append.mp hm with hm2 | hm2
                                  · rcases (by simpa using hm2 :
                                        e = Event.tsvStep idx cin (env.tsvExit idx)
                                        ∨ e = Event.renderRules idx t.pfx t.records
                                            t.headers t.metadata
                                        ∨ e = Event.rdfStep idx (outputNameOf args t)
                                            (env.rdfExit idx)
                                        ∨ e = Event.wroteArtifacts idx (outputNameOf args t)
                                            (compRunOf env args sel idx
                                              (outputNameOf args t)).2
                                        ∨ e = Event.wroteLedger idx
                                            (outputNameOf args t)) with
                                      rfl | rfl | rfl | rfl | rfl <;> simp [stepEvtOk, hpfx]
                                  · rcases rdfCleanupOf_events env args sel idx
                                        (outputNameOf args t) e hm2 with
                                      ⟨p, rfl⟩ | ⟨p, rfl⟩ <;> simp [stepEvtOk]
                                · rcases tsvCleanupOf_events env args idx t e hm with
                                    ⟨p, rfl⟩ | ⟨p, rfl⟩ <;> simp [stepEvtOk]
                              · rw [List.filterMap_append, List.filterMap_append,
                                  rdfCleanupOf_filterMap, tsvCleanupOf_filterMap]
                                rfl
                          | true =>
                              have he : fullStep env args sel ledger idx cin pfx0
                                  = (some (update_metrics_csv_with_compression "metrics.csv"
                                        ledger args.runId args.timestamp
                                        (outputNameOf args t)
                                        (args.outDirPath ++ "/" ++ outputNameOf args t)
                                        ((env.sizeOf idx (args.outDirPath ++ "/"
                                          ++ outputNameOf args t ++ "/"
                                          ++ srcNameOf env args idx
                                            (outputNameOf args t))).getD 0)
                                        sel (compRunOf env args sel idx
                                          (outputNameOf args t)).2).written,
                                     ([.tsvStep idx cin (env.tsvExit idx),
                                       .renderRules idx t.pfx t.records t.headers t.metadata,
                                       .rdfStep idx (outputNameOf args t) (env.rdfExit idx),
                                       .wroteArtifacts idx (outputNameOf args t)
                                         (compRunOf env args sel idx (outputNameOf args t)).2,
                                       .wroteLedger idx (outputNameOf args t)] ++
                                       (rdfCleanupOf env args sel idx
                                         (outputNameOf args t)).1) ++
                                       (tsvCleanupOf env args idx t).1,
                                     none) := by
                                unfold fullStep
                                simp only [if_neg h1, hdisc, hfind, if_neg h4, hcomp, h5,
                                  hrc, htc, Bool.false_eq_true, eq_self_iff_true,
                                  not_true_eq_false, not_false_eq_true, if_true, if_false]
                                rfl
                              rw [he]
                              refine ⟨?_, ?_, Or.inl rfl, ?_⟩
                              · intro e he'
                                rcases List.mem_append.mp he' with hm | hm
                                · rcases List.mem_append.mp hm with hm2 | hm2
                                  · rcases (by simpa using hm2 :
                                        e = Event.tsvStep idx cin (env.tsvExit idx)
                                        ∨ e = Event.renderRules idx t.pfx t.records
                                            t.headers t.metadata
                                        ∨ e = Event.rdfStep idx (outputNameOf args t)
                                            (env.rdfExit idx)
                                        ∨ e = Event.wroteArtifacts idx (outputNameOf args t)
                                            (compRunOf env args sel idx
                                              (outputNameOf args t)).2
                                        ∨ e = Event.wroteLedger idx
                                            (outputNameOf args t)) with
                                      rfl | rfl | rfl | rfl | rfl <;> simp [stepEvtOk, hpfx]
                                  · rcases rdfCleanupOf_events env args sel idx
                                        (outputNameOf args t) e hm2 with
                                      ⟨p, rfl⟩ | ⟨p, rfl⟩ <;> simp [stepEvtOk]
                                · rcases tsvCleanupOf_events env args idx t e hm with
                                    ⟨p, rfl⟩ | ⟨p, rfl⟩ <;> simp [stepEvtOk]
                              · rw [List.filterMap_append, List.filterMap_append,
                                  rdfCleanupOf_filterMap, tsvCleanupOf_filterMap]
                                rfl
                              · intro _
                                refine ⟨t.records, t.headers, t.metadata, ?_⟩
                                rw [← hpfx]
                                simp

/-- `lexLe` is total. -/
theorem lexLe_total : ∀ a b : List Char, lexLe a b = true ∨ lexLe b a = true
  | [], _ => Or.inl rfl
  | _ :: _, [] => Or.inr rfl
  | a :: as, b :: bs => by
      by_cases h1 : a.toNat < b.toNat
      · exact Or.inl (by simp [lexLe, h1])
      · by_cases h2 : b.toNat < a.toNat
        · exact Or.inr (by simp [lexLe, h2])
        · rcases lexLe_total as bs with h | h
          · exact Or.inl (by simp [lexLe, h1, h2, h])
          · exact Or.inr (by simp [lexLe, h1, h2, h])

/-- `lexLe` is transitive. -/
theorem lexLe_trans : ∀ a b c : List Char, lexLe a b = true → lexLe b c = true →
    lexLe a c = true
  | [], _, _, _, _ => rfl
  | _ :: _, [], _, h, _ => by simp [lexLe] at h
  | _ :: _, _ :: _, [], _, h => by simp [lexLe] at h
  | a :: as, b :: bs, c :: cs, h1, h2 => by
      simp only [lexLe] at h1 h2 ⊢
      by_cases hab : a.toNat < b.toNat
      · by_cases hbc : b.toNat < c.toNat
        · rw [if_pos (Nat.lt_trans hab hbc)]
        · rw [if_neg hbc] at h2
          by_cases hcb : c.toNat < b.toNat
          · rw [if_pos hcb] at h2
            exact absurd h2 (by simp)
          · have hac : a.toNat < c.toNat := by omega
            rw [if_pos hac]
      · rw [if_neg hab] at h1
        by_cases hba : b.toNat < a.toNat
        · rw [if_pos hba] at h1
          exact absurd h1 (by simp)
        · rw [if_neg hba] at h1
          by_cases hbc : b.toNat < c.toNat
          · have hac : a.toNat < c.toNat := by omega
            rw [if_pos hac]
          · rw [if_neg hbc] at h2
            by_cases hcb : c.toNat < b.toNat
            · rw [if_pos hcb] at h2
              exact absurd h2 (by simp)
            · rw [if_neg hcb] at h2
              have hac : ¬ a.toNat < c.toNat := by omega
              have hca : ¬ c.toNat < a.toNat := by omega
              rw [if_neg hac, if_neg hca]
              exact lexLe_trans as bs cs h1 h2

instance : IsTotal String (fun a b => strLe a b = true) :=
  ⟨fun a b => lexLe_total a.data b.data⟩

instance : IsTrans String (fun a b => strLe a b = true) :=
  ⟨fun a b c => lexLe_trans a.data b.data c.data⟩

/-- `sorted` output is sorted under Python string order. -/
theorem sortStrings_sorted (l : List String) :
    List.Sorted (fun a b => strLe a b = true) (sortStrings l) :=
  List.sorted_insertionSort _ l

/-- The VCF listing of a directory is sorted. -/
theorem list_vcfs_in_dir_sorted (names : List String) :
    List.Pairwise (fun a b => strLe a b = true) (list_vcfs_in_dir names) :=
  List.Pairwise.filter _ (sortStrings_sorted names)

/-- Events scoped to an iteration are never the end-of-run directory
cleanup events. -/
theorem stepEvtOk_ne_dir {idx : Nat} {pfx0 : String} {e : Event}
    (h : stepEvtOk idx pfx0 e = true) :
    e ≠ Event.removedTsvDir ∧ e ≠ Event.notedTsvDirKept := by
  constructor <;> rintro rfl <;> simp [stepEvtOk] at h

/-- When discovery succeeds but no triplet carries the expected name,
the iteration fails with the error naming that prefix. -/
theorem fullStep_missing_eq (env : FullEnv) (args : FullArgs) (sel : List CompMethod)
    (ledger : Option CsvFile) (idx : Nat) (cin pfx0 : String)
    (h1 : env.tsvExit idx = 0) {ts : List Triplet}
    (hdisc : discover_tsv_triplets (env.tsvDirAfter idx) = Except.ok ts)
    (hfind : ts.reverse.find? (fun t => t.pfx == pfx0) = none) :
    fullStep env args sel ledger idx cin pfx0
      = (ledger, [Event.tsvStep idx cin 0, Event.errorMissingTriplet idx pfx0], some 1) := by
  have h1' : ¬ env.tsvExit idx ≠ 0 := by simp [h1]
  unfold fullStep
  simp only [if_neg h1', hdisc, hfind, h1]
  rfl

/-- When the compression stage of an iteration reports failure, the
iteration returns code 1 with the ledger untouched and no
artifacts/ledger write events. -/
theorem fullStep_comp_fail_eq (env : FullEnv) (args : FullArgs) (sel : List CompMethod)
    (ledger : Option CsvFile) (idx : Nat) (cin pfx0 : String)
    (h1 : env.tsvExit idx = 0) {ts : List Triplet} {t : Triplet}
    (hdisc : discover_tsv_triplets (env.tsvDirAfter idx) = Except.ok ts)
    (hfind : ts.reverse.find? (fun t2 => t2.pfx == pfx0) = some t)
    (h4 : env.rdfExit idx = 0)
    (hcomp : (compRunOf env args sel idx (outputNameOf args t)).1 = false) :
    fullStep env args sel ledger idx cin pfx0
      = (ledger, [Event.tsvStep idx cin 0,
          Event.renderRules idx t.pfx t.records t.headers t.metadata,
          Event.rdfStep idx (outputNameOf args t) 0,
          Event.errorCompression idx], some 1) := by
  have h1' : ¬ env.tsvExit idx ≠ 0 := by simp [h1]
  have h4' : ¬ env.rdfExit idx ≠ 0 := by simp [h4]
  unfold fullStep
  simp only [if_neg h1', hdisc, hfind, if_neg h4', hcomp, h1, h4,
    Bool.false_eq_true, not_false_eq_true, if_true]
  rfl

/-- End-of-run TSV directory cleanup events across the loop: the removal
happens iff the loop completed, cleanup was requested and the directory
did not pre-exist; the keep note appears iff it completed, cleanup was
requested and the directory pre-existed. -/
theorem runFullLoop_cleanup (env : FullEnv) (args : FullArgs) (sel : List CompMethod) :
    ∀ (l : List (String × String)) (idx : Nat) (ledger : Option CsvFile) (acc : List Event),
      (Event.removedTsvDir ∈ (runFullLoop env args sel idx ledger acc l).2.2 ↔
        Event.removedTsvDir ∈ acc ∨
          ((runFullLoop env args sel idx ledger acc l).1 = 0 ∧ args.keepTsv = false ∧
            env.tsvDirExisted = false)) ∧
      (Event.notedTsvDirKept ∈ (runFullLoop env args sel idx ledger acc l).2.2 ↔
        Event.notedTsvDirKept ∈ acc ∨
          ((runFullLoop env args sel idx ledger acc l).1 = 0 ∧ args.keepTsv = false ∧
            env.tsvDirExisted = true))
  | [], idx, ledger, acc => by
      cases hk : args.keepTsv with
      | true => simp [runFullLoop, hk]
      | false =>
          cases he : env.tsvDirExisted with
          | true => simp [runFullLoop, hk, he]
          | false => simp [runFullLoop, hk, he]
  | (cin, pfx) :: rest, idx, ledger, acc => by
      rcases hstep : fullStep env args sel ledger idx cin pfx with ⟨l1, evs, ex⟩
      have hm := fullStep_master env args sel ledger idx cin pfx
      rw [hstep] at hm
      obtain ⟨hok, -, hex, -⟩ := hm
      have hnr : Event.removedTsvDir ∉ evs := by
        intro hmem
        exact (stepEvtOk_ne_dir (hok _ hmem)).1 rfl
      have hnn : Event.notedTsvDirKept ∉ evs := by
        intro hmem
        exact (stepEvtOk_ne_dir (hok _ hmem)).2 rfl
      cases ex with
      | some code =>
          have hcode : code = 1 := by
            rcases hex with h | h
            · exact absurd h (by simp)
            · simpa using h
          subst hcode
          have hrun : runFullLoop env args sel idx ledger acc ((cin, pfx) :: rest)
              = (1, l1, acc ++ evs) := by
            simp only [runFullLoop, hstep]
          rw [hrun]
          simp [List.mem_append, hnr, hnn]
      | none =>
          have hrun : runFullLoop env args sel idx ledger acc ((cin, pfx) :: rest)
              = runFullLoop env args sel (idx + 1) l1 (acc ++ evs) rest := by
            simp only [runFullLoop, hstep]
          rw [hrun]
          have ih := runFullLoop_cleanup env args sel rest (idx + 1) l1 (acc ++ evs)
          rw [ih.1, ih.2, List.mem_append, List.mem_append]
          constructor <;> constructor <;> intro h <;>
            [skip; skip; skip; skip] <;> tauto

/-- The full-mode loop only ever returns 0 (completed) or 1 (an
iteration failed). -/
theorem runFullLoop_code (env : FullEnv) (args : FullArgs) (sel : List CompMethod) :
    ∀ (l : List (String × String)) (idx : Nat) (ledger : Option CsvFile) (acc : List Event),
      (runFullLoop env args sel idx ledger acc l).1 = 0 ∨
        (runFullLoop env args sel idx ledger acc l).1 = 1
  | [], idx, ledger, acc => by
      cases hk : args.keepTsv with
      | true => simp [runFullLoop, hk]
      | false =>
          cases he : env.tsvDirExisted with
          | true => simp [runFullLoop, hk, he]
          | false => simp [runFullLoop, hk, he]
  | (cin, pfx) :: rest, idx, ledger, acc => by
      rcases hstep : fullStep env args sel ledger idx cin pfx with ⟨l1, evs, ex⟩
      have hm := fullStep_master env args sel ledger idx cin pfx
      rw [hstep] at hm
      obtain ⟨-, -, hex, -⟩ := hm
      cases ex with
      | some code =>
          have hcode : code = 1 := by
            rcases hex with h | h
            · exact absurd h (by simp)
            · simpa using h
          subst hcode
          have hrun : runFullLoop env args sel idx ledger acc ((cin, pfx) :: rest)
              = (1, l1, acc ++ evs) := by
            simp only [runFullLoop, hstep]
          rw [hrun]
          exact Or.inr rfl
      | none =>
          have hrun : runFullLoop env args sel idx ledger acc ((cin, pfx) :: rest)
              = runFullLoop env args sel (idx + 1) l1 (acc ++ evs) rest := by
            simp only [runFullLoop, hstep]
          rw [hrun]
          exact runFullLoop_code env args sel rest (idx + 1) l1 (acc ++ evs)

/-- The TSV stages recorded by the loop run over a prefix of the zipped
inputs, in list order, and a completed loop ran them all. -/
theorem runFullLoop_tsv_inputs (env : FullEnv) (args : FullArgs) (sel : List CompMethod) :
    ∀ (l : List (String × String)) (idx : Nat) (ledger : Option CsvFile) (acc : List Event),
      ∃ k, ((runFullLoop env args sel idx ledger acc l).2.2).filterMap evTsvInput
          = acc.filterMap evTsvInput ++ (l.map Prod.fst).take k ∧
        ((runFullLoop env args sel idx ledger acc l).1 = 0 → k = l.length)
  | [], idx, ledger, acc => by
      refine ⟨0, ?_, fun _ => rfl⟩
      cases hk : args.keepTsv with
      | true => simp [runFullLoop, hk]
      | false =>
          cases he : env.tsvDirExisted with
          | true => simp [runFullLoop, hk, he, evTsvInput]
          | false => simp [runFullLoop, hk, he, evTsvInput]
  | (cin, pfx) :: rest, idx, ledger, acc => by
      rcases hstep : fullStep env args sel ledger idx cin pfx with ⟨l1, evs, ex⟩
      have hm := fullStep_master env args sel ledger idx cin pfx
      rw [hstep] at hm
      obtain ⟨-, hfm, hex, -⟩ := hm
      have hfm' : evs.filterMap evTsvInput = [cin] := hfm
      cases ex with
      | some code =>
          have hcode : code = 1 := by
            rcases hex with h | h
            · exact absurd h (by simp)
            · simpa using h
          subst hcode
          have hrun : runFullLoop env args sel idx ledger acc ((cin, pfx) :: rest)
              = (1, l1, acc ++ evs) := by
            simp only [runFullLoop, hstep]
          rw [hrun]
          refine ⟨1, ?_, ?_⟩
          · rw [List.filterMap_append, hfm']
            rfl
          · intro h
            exact absurd h (by simp)
      | none =>
          have hrun : runFullLoop env args sel idx ledger acc ((cin, pfx) :: rest)
              = runFullLoop env args sel (idx + 1) l1 (acc ++ evs) rest := by
            simp only [runFullLoop, hstep]
          rw [hrun]
          obtain ⟨k, hk1, hk2⟩ := runFullLoop_tsv_inputs env args sel rest (idx + 1) l1 (acc ++ evs)
          refine ⟨k + 1, ?_, ?_⟩
          · rw [hk1, List.filterMap_append, hfm']
            simp [List.append_assoc]
          · intro h
            rw [hk2 h]
            simp

/-- The full-mode validation slice of `main` (vcf_rdfizer.py:1178-1194,
1224-1226): input-snapshot resolution, the rules-file existence check
and compression-method parsing each raise `ValueError`, which `main`
catches and maps to exit code 2 before any external command runs. -/
def mainFullValidate (env : FsEnv) (inputPath rulesPath compression : String) :
    Except ℤ (Snapshot × List String) :=
  match resolve_input_snapshot env inputPath with
  | .error _ => .error 2
  | .ok snap =>
      if ¬ (env.pathExists rulesPath && env.isFile rulesPath) then .error 2
      else
        match parse_compression_methods compression with
        | .error _ => .error 2
        | .ok ms => .ok (snap, ms)

/-- The method loop records every method before the first failure, then
the failing method itself, and drops the rest. -/
theorem runCompLoop_fail_fast (cenv : CompEnv) (stem ext dir : String) :
    ∀ (pre : List CompMethod) (m : CompMethod) (rest : List CompMethod),
      (∀ p ∈ pre, (compResult cenv stem ext dir p).exit_code = 0) →
      (compResult cenv stem ext dir m).exit_code ≠ 0 →
      runCompLoop cenv stem ext dir (pre ++ m :: rest)
        = (false, pre.map (fun p => (p, compResult cenv stem ext dir p))
            ++ [(m, compResult cenv stem ext dir m)])
  | [], m, rest, _, hm => by
      simp only [List.nil_append, runCompLoop, if_pos hm, List.map_nil]
  | p :: pre, m, rest, hpre, hm => by
      have hp : ¬ (compResult cenv stem ext dir p).exit_code ≠ 0 := by
        simp [hpre p (by simp)]
      have ih := runCompLoop_fail_fast cenv stem ext dir pre m rest
        (fun q hq => hpre q (by simp [hq])) hm
      simp only [List.cons_append, runCompLoop, if_neg hp, List.append_eq, ih, List.map_cons]

/-- C9: in full mode the TSV directory is removed at end of run iff the
run completed, keep-tsv is unset and the directory did not exist at run
start; a pre-existing directory is never removed, only noted as kept. -/
theorem cleanup_ownership_c9 (env : FullEnv) (args : FullArgs) (ledger0 : Option CsvFile)
    (out : RunOut) (hrun : run_full_mode env args ledger0 = Except.ok out) :
    (Event.removedTsvDir ∈ out.trace ↔
      out.exitCode = 0 ∧ args.keepTsv = false ∧ env.tsvDirExisted = false) ∧
    (Event.notedTsvDirKept ∈ out.trace ↔
      out.exitCode = 0 ∧ args.keepTsv = false ∧ env.tsvDirExisted = true) := by
  cases hp : parse_compression_methods args.compression with
  | error e =>
      simp only [run_full_mode, hp] at hrun
      exact absurd hrun (by simp)
  | ok ms =>
      simp only [run_full_mode, hp] at hrun
      rw [Except.ok.injEq] at hrun
      subst hrun
      have h2 := runFullLoop_cleanup env args (ms.filterMap strToMethod)
        (args.containerInputs.zip args.expectedPfxs) 0 ledger0 []
      simpa using h2

/-- A run over no inputs with an absent TSV directory removes the
directory it created. -/
def c9Env : FullEnv :=
  ⟨fun _ => 0, fun _ => [], fun _ => 0, fun _ _ => false,
   fun _ => ⟨fun _ => 0, fun _ => 0, fun _ => none⟩, fun _ _ => none,
   fun _ => true, fun _ => true, false⟩

/-- Arguments of the C9 exercising run. -/
def c9Args : FullArgs :=
  ⟨[], [], "/out", "/tsv", "/m", "out", "", false, false, "r", "t"⟩

theorem cleanup_ownership_c9_witness :
    (Event.removedTsvDir ∈ [Event.removedTsvDir] ↔
      (0 : ℤ) = 0 ∧ false = false ∧ false = false) ∧
    (Event.notedTsvDirKept ∈ [Event.removedTsvDir] ↔
      (0 : ℤ) = 0 ∧ false = false ∧ false = true) :=
  cleanup_ownership_c9 c9Env c9Args none ⟨0, none, [Event.removedTsvDir]⟩ (by decide)

/-- C5: an iteration only ever templates the triplet named by the
expected snapshot name (discovered triplets with other prefixes are
ignored); if discovery yields no triplet with the expected name, the
iteration fails with the error naming it; snapshot inputs come from a
sorted file list and the loop consumes them in list order, all of them
on a completed run. -/
theorem triplet_matching_c5 :
    (∀ (env : FullEnv) (args : FullArgs) (sel : List CompMethod) (ledger : Option CsvFile)
        (idx : Nat) (cin pfx0 : String) (i : Nat) (p r h m : String),
        Event.renderRules i p r h m ∈ (fullStep env args sel ledger idx cin pfx0).2.1 →
        p = pfx0 ∧ i = idx) ∧
    (∀ (env : FullEnv) (args : FullArgs) (sel : List CompMethod) (ledger : Option CsvFile)
        (idx : Nat) (cin pfx0 : String) (ts : List Triplet),
        env.tsvExit idx = 0 →
        discover_tsv_triplets (env.tsvDirAfter idx) = Except.ok ts →
        (∀ t ∈ ts, t.pfx ≠ pfx0) →
        fullStep env args sel ledger idx cin pfx0
          = (ledger, [Event.tsvStep idx cin 0, Event.errorMissingTriplet idx pfx0],
             some 1)) ∧
    (∀ (fsenv : FsEnv) (ip : String) (snap : Snapshot),
        resolve_input_snapshot fsenv ip = Except.ok snap →
        ∃ files, snap.containerInputs = files.map (fun n => "/data/in/" ++ n) ∧
          snap.expectedPfxs = files.map vcf_output_pfx ∧
          List.Pairwise (fun a b => strLe a b = true) files) ∧
    (∀ (env : FullEnv) (args : FullArgs) (ledger0 : Option CsvFile) (out : RunOut),
        run_full_mode env args ledger0 = Except.ok out →
        ∃ k, out.trace.filterMap evTsvInput
            = ((args.containerInputs.zip args.expectedPfxs).map Prod.fst).take k ∧
          (out.exitCode = 0 → k = (args.containerInputs.zip args.expectedPfxs).length)) := by
  refine ⟨?_, ?_, ?_, ?_⟩
  · intro env args sel ledger idx cin pfx0 i p r h m hmem
    have hok := (fullStep_master env args sel ledger idx cin pfx0).1 _ hmem
    simp [stepEvtOk] at hok
    exact ⟨hok.2, hok.1⟩
  · intro env args sel ledger idx cin pfx0 ts h1 hdisc hnone
    have hfind : ts.reverse.find? (fun t => t.pfx == pfx0) = none := by
      rw [List.find?_eq_none]
      intro t ht
      simpa using hnone t (List.mem_reverse.mp ht)
    exact fullStep_missing_eq env args sel ledger idx cin pfx0 h1 hdisc hfind
  · intro fsenv ip snap hres
    unfold resolve_input_snapshot at hres
    split at hres
    · exact absurd hres (by simp)
    split at hres
    · split at hres
      · exact absurd hres (by simp)
      · have hsnap : Snapshot.mk ["/data/in/" ++ baseName ip] [vcf_output_pfx (baseName ip)]
            = snap := by simpa using hres
        subst hsnap
        exact ⟨[baseName ip], by simp, by simp, by simp⟩
    split at hres
    · have hres2 : (if (list_vcfs_in_dir (fsenv.dirList ip)).isEmpty = true
          then (Except.error ValErr.noInputFiles : Except ValErr Snapshot)
          else Except.ok
            ⟨(list_vcfs_in_dir (fsenv.dirList ip)).map (fun n => "/data/in/" ++ n),
             (list_vcfs_in_dir (fsenv.dirList ip)).map vcf_output_pfx⟩) = Except.ok snap :=
        hres
      split at hres2
      · exact absurd hres2 (by simp)
      · have hsnap : Snapshot.mk
            ((list_vcfs_in_dir (fsenv.dirList ip)).map (fun n => "/data/in/" ++ n))
            ((list_vcfs_in_dir (fsenv.dirList ip)).map vcf_output_pfx) = snap := by
          simpa using hres2
        subst hsnap
        exact ⟨list_vcfs_in_dir (fsenv.dirList ip), rfl, rfl, list_vcfs_in_dir_sorted _⟩
    · exact absurd hres (by simp)
  · intro env args ledger0 out hrun
    cases hp : parse_compression_methods args.compression with
    | error e =>
        simp only [run_full_mode, hp] at hrun
        exact absurd hrun (by simp)
    | ok ms =>
        simp only [run_full_mode, hp] at hrun
        rw [Except.ok.injEq] at hrun
        subst hrun
        obtain ⟨k, hk1, hk2⟩ := runFullLoop_tsv_inputs env args (ms.filterMap strToMethod)
          (args.containerInputs.zip args.expectedPfxs) 0 ledger0 []
        exact ⟨k, by simpa using hk1, hk2⟩

/-- An environment whose TSV directory holds only a stale triplet. -/
def c5Env : FullEnv :=
  ⟨fun _ => 0,
   fun _ => ["stale.records.tsv", "stale.header_lines.tsv", "stale.file_metadata.tsv"],
   fun _ => 0, fun _ _ => false,
   fun _ => ⟨fun _ => 0, fun _ => 0, fun _ => none⟩, fun _ _ => none,
   fun _ => true, fun _ => true, true⟩

/-- Arguments of the C5 exercising run. -/
def c5Args : FullArgs :=
  ⟨["/data/in/a.vcf"], ["a"], "/out", "/tsv", "/m", "out", "", true, true, "r", "t"⟩

theorem triplet_matching_c5_witness :
    fullStep c5Env c5Args [] none 0 "/data/in/a.vcf" "a"
      = (none, [Event.tsvStep 0 "/data/in/a.vcf" 0, Event.errorMissingTriplet 0 "a"],
         some 1) :=
  triplet_matching_c5.2.1 c5Env c5Args [] none 0 "/data/in/a.vcf" "a"
    [⟨"stale", "stale.records.tsv", "stale.header_lines.tsv", "stale.file_metadata.tsv"⟩]
    (by decide) (by decide) (by decide)

/-- Decompress-mode validation returns exit code 2 or succeeds. -/
theorem mainDecompressValidate_cases (fsenv : FsEnv) (ca da : Option String) (od : String) :
    mainDecompressValidate fsenv ca da od = Except.error 2 ∨
      ∃ p, mainDecompressValidate fsenv ca da od = Except.ok p := by
  unfold mainDecompressValidate
  dsimp only []
  repeat' split
  all_goals first
    | exact Or.inl rfl
    | exact Or.inr ⟨_, rfl⟩

/-- C4 (amended): validation/usage errors map to exit code 2 and success
to 0, but a failing external step is reported as the fixed exit code 1 —
the step's own exit code is never passed through.  Full mode and
compress mode only ever return 0 or 1, and decompress mode maps every
non-zero tool exit to 1. -/
theorem exit_codes_c4 :
    (∀ (env : FullEnv) (args : FullArgs) (ledger0 : Option CsvFile) (out : RunOut),
        run_full_mode env args ledger0 = Except.ok out →
        out.exitCode = 0 ∨ out.exitCode = 1) ∧
    (∀ (fsenv : FsEnv) (ip rp comp : String) (c : ℤ),
        mainFullValidate fsenv ip rp comp = Except.error c → c = 2) ∧
    (∀ (fsenv : FsEnv) (ca da : Option String) (od : String) (c : ℤ),
        mainDecompressValidate fsenv ca da od = Except.error c → c = 2) ∧
    (∀ (cenv : CompEnv) (nq od : String) (ms : List CompMethod),
        run_compress_mode cenv nq od ms = 0 ∨ run_compress_mode cenv nq od ms = 1) ∧
    (∀ toolExit : ℤ, toolExit ≠ 0 → run_decompress_mode toolExit = 1) := by
  refine ⟨?_, ?_, ?_, ?_, ?_⟩
  · intro env args ledger0 out hrun
    cases hp : parse_compression_methods args.compression with
    | error e =>
        simp only [run_full_mode, hp] at hrun
        exact absurd hrun (by simp)
    | ok ms =>
        simp only [run_full_mode, hp] at hrun
        rw [Except.ok.injEq] at hrun
        subst hrun
        exact runFullLoop_code env args (ms.filterMap strToMethod)
          (args.containerInputs.zip args.expectedPfxs) 0 ledger0 []
  · intro fsenv ip rp comp c h
    unfold mainFullValidate at h
    repeat' split at h
    all_goals simpa using h.symm
  · intro fsenv ca da od c h
    rcases mainDecompressValidate_cases fsenv ca da od with h2 | ⟨p, h2⟩ <;> rw [h2] at h
    · simpa using h.symm
    · exact absurd h (by simp)
  · intro cenv nq od ms
    unfold run_compress_mode
    split
    · exact Or.inl rfl
    · split
      · exact Or.inl rfl
      · exact Or.inr rfl
  · intro toolExit ht
    unfold run_decompress_mode
    rw [if_pos ht]

/-- An environment whose TSV stage exits 127 for every input. -/
def c4Env : FullEnv :=
  ⟨fun _ => 127, fun _ => [], fun _ => 0, fun _ _ => false,
   fun _ => ⟨fun _ => 0, fun _ => 0, fun _ => none⟩, fun _ _ => none,
   fun _ => true, fun _ => true, true⟩

/-- Arguments of the C4 refuting run. -/
def c4Args : FullArgs :=
  ⟨["/data/in/a.vcf"], ["a"], "/out", "/tsv", "/m", "out", "", true, true, "r", "t"⟩

/-- The TSV stage exits 127, but the process exit code is the fixed 1,
not 127: the failing step's code is not passed through. -/
theorem exit_codes_c4_counterexample :
    run_full_mode c4Env c4Args none
      = Except.ok ⟨1, none, [Event.tsvStep 0 "/data/in/a.vcf" 127, Event.errorTsv 0]⟩ ∧
    (1 : ℤ) ≠ 127 := by
  constructor
  · decide
  · decide

theorem exit_codes_c4_witness :
    ((1 : ℤ) = 0 ∨ (1 : ℤ) = 1) ∧ run_decompress_mode 127 = 1 :=
  ⟨exit_codes_c4.1 c4Env c4Args none
      ⟨1, none, [Event.tsvStep 0 "/data/in/a.vcf" 127, Event.errorTsv 0]⟩ (by decide),
   exit_codes_c4.2.2.2.2 127 (by decide)⟩

/-- C3 (amended): the first failing compression method aborts the
remaining methods (the attempted methods, failure included, are captured
in the returned results) and the full-mode iteration fails with code 1 —
but the captured results are NOT written to the metrics ledger or the
artifacts: the iteration returns before the metrics stage, leaving the
ledger untouched and emitting no write events. -/
theorem partial_progress_c3 :
    (∀ (cenv : CompEnv) (stem ext dir : String) (pre : List CompMethod) (m : CompMethod)
        (rest : List CompMethod),
        (∀ p ∈ pre, (compResult cenv stem ext dir p).exit_code = 0) →
        (compResult cenv stem ext dir m).exit_code ≠ 0 →
        runCompLoop cenv stem ext dir (pre ++ m :: rest)
          = (false, pre.map (fun p => (p, compResult cenv stem ext dir p))
              ++ [(m, compResult cenv stem ext dir m)])) ∧
    (∀ (env : FullEnv) (args : FullArgs) (sel : List CompMethod) (ledger : Option CsvFile)
        (idx : Nat) (cin pfx0 : String) (ts : List Triplet) (t : Triplet),
        env.tsvExit idx = 0 →
        discover_tsv_triplets (env.tsvDirAfter idx) = Except.ok ts →
        ts.reverse.find? (fun t2 => t2.pfx == pfx0) = some t →
        env.rdfExit idx = 0 →
        (compRunOf env args sel idx (outputNameOf args t)).1 = false →
        fullStep env args sel ledger idx cin pfx0
          = (ledger, [Event.tsvStep idx cin 0,
              Event.renderRules idx t.pfx t.records t.headers t.metadata,
              Event.rdfStep idx (outputNameOf args t) 0,
              Event.errorCompression idx], some 1)) :=
  ⟨fun cenv stem ext dir pre m rest hpre hm =>
      runCompLoop_fail_fast cenv stem ext dir pre m rest hpre hm,
   fun env args sel ledger idx cin pfx0 ts t h1 hdisc hfind h4 hcomp =>
      fullStep_comp_fail_eq env args sel ledger idx cin pfx0 h1 hdisc hfind h4 hcomp⟩

/-- A compression oracle where gzip succeeds and brotli fails. -/
def c3CompEnv : CompEnv :=
  ⟨fun m => match m with | .brotli => 9 | _ => 0, fun _ => 1, fun _ => some 10⟩

/-- An environment whose pipeline succeeds up to a failing brotli. -/
def c3Env : FullEnv :=
  ⟨fun _ => 0,
   fun _ => ["a.records.tsv", "a.header_lines.tsv", "a.file_metadata.tsv"],
   fun _ => 0, fun _ _ => true, fun _ => c3CompEnv, fun _ _ => some 42,
   fun _ => true, fun _ => true, true⟩

/-- Arguments requesting gzip then brotli. -/
def c3Args : FullArgs :=
  ⟨["/data/in/a.vcf"], ["a"], "/out", "/tsv", "/m", "out", "gzip,brotli", true, true,
   "r", "t"⟩

/-- With gzip succeeding and brotli failing, the run exits 1 and the
ledger stays empty: the captured gzip/brotli results are never written
(no ledger or artifacts write event occurs). -/
theorem partial_progress_c3_counterexample :
    run_full_mode c3Env c3Args none
      = Except.ok ⟨1, none,
          [Event.tsvStep 0 "/data/in/a.vcf" 0,
           Event.renderRules 0 "a" "a.records.tsv" "a.header_lines.tsv"
             "a.file_metadata.tsv",
           Event.rdfStep 0 "a" 0,
           Event.errorCompression 0]⟩ ∧
    Event.wroteLedger 0 "a" ∉
      [Event.tsvStep 0 "/data/in/a.vcf" 0,
       Event.renderRules 0 "a" "a.records.tsv" "a.header_lines.tsv"
         "a.file_metadata.tsv",
       Event.rdfStep 0 "a" 0,
       Event.errorCompression 0] := by
  constructor
  · decide
  · decide

theorem partial_progress_c3_witness :
    runCompLoop c3CompEnv "a" "nt" "/out/a"
        ([CompMethod.gzip] ++ CompMethod.brotli :: [CompMethod.hdt])
      = (false,
         [CompMethod.gzip].map (fun p => (p, compResult c3CompEnv "a" "nt" "/out/a" p))
           ++ [(CompMethod.brotli, compResult c3CompEnv "a" "nt" "/out/a"
                 CompMethod.brotli)]) :=
  partial_progress_c3.1 c3CompEnv "a" "nt" "/out/a" [CompMethod.gzip] CompMethod.brotli
    [CompMethod.hdt] (by decide) (by decide)
